import Mathlib

/-!
Verification development for the CONF-B room-membership server
(source: src/server.js).

The JavaScript source keeps a global registry of rooms; each room has a
participants object, a waitingParticipants object, a hostId/hostPeerId
slot, settings and a creation timestamp.  Socket.io connections drive the
handlers: join-room, approve-participant, reject-participant,
toggle-audio, toggle-video, remove-participant, get-waiting-participants,
disconnect, plus a 60-second deferred cleanup timer scheduled from the
disconnect handler.

JavaScript objects keyed by socket id are embedded as association lists
with lookup, insert (replace) and erase operations; socket.io room
membership (socket.join / broadcast targets) is an explicit list of
(roomId, socketId) pairs; the set of live connections is a list of socket
ids; scheduled cleanup timers are a multiset of room ids.  Each socket.io
handler becomes a pure function from server state and arguments to a new
state plus a list of emitted events, and the whole server is a step
function over an event alphabet, with reachability defined inductively.
-/

/-- Association-list lookup, the embedding of JavaScript object indexing
obj[key]. -/
def mlookup {α : Type} (k : String) : List (String × α) → Option α
  | [] => none
  | p :: ps => if p.1 = k then some p.2 else mlookup k ps

/-- Erase a key, the embedding of the JavaScript delete obj[key]. -/
def merase {α : Type} (k : String) : List (String × α) → List (String × α)
  | [] => []
  | p :: ps => if p.1 = k then merase k ps else p :: merase k ps

/-- Insert or replace a key, the embedding of JavaScript obj[key] = v
(insertion position differs from JavaScript, key/value contents do not). -/
def minsert {α : Type} (k : String) (v : α) (m : List (String × α)) : List (String × α) :=
  (k, v) :: merase k m

theorem mlookup_merase {α : Type} (k j : String) (m : List (String × α)) :
    mlookup j (merase k m) = if k = j then none else mlookup j m := by
  induction m with
  | nil => simp [merase, mlookup]
  | cons p ps ih =>
    by_cases hpk : p.1 = k
    · rw [merase, if_pos hpk]
      by_cases hkj : k = j
      · subst hkj
        simpa using ih
      · have hpj : ¬ p.1 = j := by rw [hpk]; exact hkj
        simp [ih, hkj, mlookup, hpj]
    · rw [merase, if_neg hpk]
      by_cases hpj : p.1 = j
      · have hkj : ¬ k = j := by
          intro h
          exact hpk (by rw [h, hpj])
        simp [mlookup, hpj, hkj]
      · simp [mlookup, hpj, ih]

theorem mlookup_minsert {α : Type} (k j : String) (v : α) (m : List (String × α)) :
    mlookup j (minsert k v m) = if k = j then some v else mlookup j m := by
  by_cases h : k = j
  · simp [minsert, mlookup, h]
  · simp [minsert, mlookup, h, mlookup_merase]

theorem mlookup_map {α β : Type} (f : String → α → β) (j : String) (m : List (String × α)) :
    mlookup j (m.map (fun p => (p.1, f p.1 p.2))) = (mlookup j m).map (f j) := by
  induction m with
  | nil => simp [mlookup]
  | cons p ps ih =>
    by_cases h : p.1 = j
    · subst h; simp [mlookup]
    · simp [mlookup, h, ih]

/-- One admitted member, the embedding of the participant records built by
the join-room and approve-participant handlers. -/
structure Participant where
  id : String
  username : String
  peerId : String
  socketId : String
  joinedAt : Nat
  audioEnabled : Bool
  videoEnabled : Bool
  isHost : Bool
deriving DecidableEq

/-- One pending admission, the embedding of the records stored in
waitingParticipants by the join-room handler. -/
structure WaitingRecord where
  id : String
  username : String
  peerId : String
  socketId : String
  joinedAt : Nat
deriving DecidableEq

/-- Room settings, created once in POST /api/room and never consulted by
the admission algorithm. -/
structure RoomSettings where
  requireApproval : Bool
  allowedToJoin : List String
deriving DecidableEq

/-- One room of the registry, the embedding of the objects stored in the
global rooms table. -/
structure Room where
  id : String
  participants : List (String × Participant)
  waitingParticipants : List (String × WaitingRecord)
  hostId : Option String
  hostPeerId : Option String
  createdAt : Nat
  settings : RoomSettings
deriving DecidableEq

/-- The whole server state: the rooms registry, socket.io room membership
(pairs roomId, socketId), the live connections, and the multiset of
scheduled 60-second cleanup checks. -/
structure ServerState where
  rooms : List (String × Room)
  rtc : List (String × String)
  connectedSockets : List String
  pendingChecks : List String
deriving DecidableEq

/-- Every message the handlers emit, one constructor per socket.io event
name, tagged with the destination socket id. -/
inductive Emit where
  | roomError (dst msg : String)
  | hostStatus (dst : String) (host : Bool)
  | roomParticipants (dst : String) (roster : List (String × Participant))
  | waitingForApproval (dst : String)
  | joinRequest (dst pid username peerId : String)
  | approvalGranted (dst : String)
  | approvalRejected (dst : String)
  | userJoined (dst pid username peerId : String)
  | userToggleAudio (dst pid peerId : String) (enabled : Bool)
  | userToggleVideo (dst pid peerId : String) (enabled : Bool)
  | youWereRemoved (dst : String)
  | userRemoved (dst pid peerId : String)
  | waitingList (dst : String) (ws : List WaitingRecord)
  | hostLeft (dst : String)
  | userLeft (dst pid peerId : String)
  | errorMessage (dst msg : String)
deriving DecidableEq

/-- Members of a socket.io room: the second components of the rtc pairs
whose first component is the room id. -/
def rtcMembers (rid : String) (rtc : List (String × String)) : List String :=
  (rtc.filter (fun pr => pr.1 = rid)).map Prod.snd

/-- The embedding of socket.join(roomId): add the pair once. -/
def rtcJoin (rid sock : String) (rtc : List (String × String)) : List (String × String) :=
  if (rid, sock) ∈ rtc then rtc else rtc ++ [ (rid, sock) ]

/-- Remove a socket from every socket.io room (done by socket.io itself on
disconnect, and by our embedding of socket.disconnect(true)). -/
def rtcLeaveAll (sock : String) (rtc : List (String × String)) : List (String × String) :=
  rtc.filter (fun pr => pr.2 ≠ sock)

/-- The empty server state at process start. -/
def initState : ServerState := ⟨ [], [], [], [] ⟩

/-- POST /api/room: allocate a fresh empty room under the generated id. -/
def handleCreateRoom (s : ServerState) (rid : String) (now : Nat) : ServerState × List Emit :=
  let newRoom : Room :=
    { id := rid
      participants := []
      waitingParticipants := []
      hostId := none
      hostPeerId := none
      createdAt := now
      settings := { requireApproval := true, allowedToJoin := [] } }
  ({ s with rooms := minsert rid newRoom s.rooms }, [])

/-- A new socket connection. -/
def handleConnect (s : ServerState) (sock : String) : ServerState × List Emit :=
  ({ s with connectedSockets :=
      if sock ∈ s.connectedSockets then s.connectedSockets else sock :: s.connectedSockets }, [])

/-- The join-room handler (src/server.js lines 68-141).  A missing room
emits room-error; the branch isHost || !room.hostId admits the caller as
host, overwrites hostId/hostPeerId, stores an isHost record and sends a
hard-coded empty roster; otherwise the caller is stored in
waitingParticipants and the host is notified. -/
def handleJoinRoom (s : ServerState) (sock rid username peerId : String)
    (hostFlag : Bool) (now : Nat) : ServerState × List Emit :=
  match mlookup rid s.rooms with
  | none => (s, [ Emit.roomError sock "Room does not exist" ])
  | some room =>
    if hostFlag = true ∨ room.hostId = none then
      let part : Participant :=
        { id := sock, username := username, peerId := peerId, socketId := sock
          joinedAt := now, audioEnabled := true, videoEnabled := true, isHost := true }
      let room' : Room :=
        { room with hostId := some sock, hostPeerId := some peerId
                    participants := minsert sock part room.participants }
      ({ s with rooms := minsert rid room' s.rooms, rtc := rtcJoin rid sock s.rtc },
       [ Emit.hostStatus sock true, Emit.roomParticipants sock [] ])
    else
      let w : WaitingRecord :=
        { id := sock, username := username, peerId := peerId, socketId := sock, joinedAt := now }
      let room' : Room :=
        { room with waitingParticipants := minsert sock w room.waitingParticipants }
      ({ s with rooms := minsert rid room' s.rooms },
       Emit.waitingForApproval sock ::
         (match room.hostId with
          | some h => [ Emit.joinRequest h sock username peerId ]
          | none => []))

/-- The approve-participant handler (src/server.js lines 144-199).  The
record is moved from waiting to participants before the liveness check;
only a live candidate joins the socket.io room, receives the roster
excluding itself, and triggers the user-joined broadcast, which goes to
every socket.io room member except the sender (the host) — the freshly
joined candidate included. -/
def handleApprove (s : ServerState) (sock rid pid : String) : ServerState × List Emit :=
  match mlookup rid s.rooms with
  | none => (s, [ Emit.errorMessage sock "Unauthorized" ])
  | some room =>
    if room.hostId ≠ some sock then (s, [ Emit.errorMessage sock "Unauthorized" ])
    else
      match mlookup pid room.waitingParticipants with
      | none => (s, [])
      | some w =>
        let part : Participant :=
          { id := w.id, username := w.username, peerId := w.peerId, socketId := w.socketId
            joinedAt := w.joinedAt, audioEnabled := true, videoEnabled := true, isHost := false }
        let room' : Room :=
          { room with participants := minsert pid part room.participants
                      waitingParticipants := merase pid room.waitingParticipants }
        let s1 : ServerState := { s with rooms := minsert rid room' s.rooms }
        if pid ∈ s.connectedSockets then
          let s2 : ServerState := { s1 with rtc := rtcJoin rid pid s1.rtc }
          let roster := merase pid room'.participants
          (s2,
           Emit.approvalGranted pid ::
             Emit.roomParticipants pid roster ::
             ((rtcMembers rid s2.rtc).filter (fun t => t ≠ sock)).map
               (fun t => Emit.userJoined t pid w.username w.peerId))
        else (s1, [])

/-- The reject-participant handler (src/server.js lines 202-229): erase
from waiting, then notify and force-disconnect the candidate when its
socket is still live. -/
def handleReject (s : ServerState) (sock rid pid : String) : ServerState × List Emit :=
  match mlookup rid s.rooms with
  | none => (s, [ Emit.errorMessage sock "Unauthorized" ])
  | some room =>
    if room.hostId ≠ some sock then (s, [ Emit.errorMessage sock "Unauthorized" ])
    else
      match mlookup pid room.waitingParticipants with
      | none => (s, [])
      | some _ =>
        let room' : Room :=
          { room with waitingParticipants := merase pid room.waitingParticipants }
        let s1 : ServerState := { s with rooms := minsert rid room' s.rooms }
        if pid ∈ s.connectedSockets then
          ({ s1 with rtc := rtcLeaveAll pid s1.rtc
                     connectedSockets := s1.connectedSockets.filter (fun c => c ≠ pid) },
           [ Emit.approvalRejected pid ])
        else (s1, [])

/-- The toggle-audio handler (src/server.js lines 232-245). -/
def handleToggleAudio (s : ServerState) (sock rid peerId : String) (enabled : Bool) :
    ServerState × List Emit :=
  match mlookup rid s.rooms with
  | none => (s, [])
  | some room =>
    match mlookup sock room.participants with
    | none => (s, [])
    | some p =>
      let room' : Room :=
        { room with participants := minsert sock { p with audioEnabled := enabled } room.participants }
      ({ s with rooms := minsert rid room' s.rooms },
       ((rtcMembers rid s.rtc).filter (fun t => t ≠ sock)).map
         (fun t => Emit.userToggleAudio t sock peerId enabled))

/-- The toggle-video handler (src/server.js lines 248-261). -/
def handleToggleVideo (s : ServerState) (sock rid peerId : String) (enabled : Bool) :
    ServerState × List Emit :=
  match mlookup rid s.rooms with
  | none => (s, [])
  | some room =>
    match mlookup sock room.participants with
    | none => (s, [])
    | some p =>
      let room' : Room :=
        { room with participants := minsert sock { p with videoEnabled := enabled } room.participants }
      ({ s with rooms := minsert rid room' s.rooms },
       ((rtcMembers rid s.rtc).filter (fun t => t ≠ sock)).map
         (fun t => Emit.userToggleVideo t sock peerId enabled))

/-- The remove-participant handler (src/server.js lines 264-289): after
the host check and presence check, notify the target and the other
socket.io room members, delete the record and force-disconnect the
target. -/
def handleRemove (s : ServerState) (sock rid pid peerId : String) : ServerState × List Emit :=
  match mlookup rid s.rooms with
  | none => (s, [ Emit.errorMessage sock "Only host can remove participants" ])
  | some room =>
    if room.hostId ≠ some sock then
      (s, [ Emit.errorMessage sock "Only host can remove participants" ])
    else
      match mlookup pid room.participants with
      | none => (s, [])
      | some _ =>
        let room' : Room := { room with participants := merase pid room.participants }
        ({ s with rooms := minsert rid room' s.rooms
                  rtc := rtcLeaveAll pid s.rtc
                  connectedSockets := s.connectedSockets.filter (fun c => c ≠ pid) },
         Emit.youWereRemoved pid ::
           ((rtcMembers rid s.rtc).filter (fun t => t ≠ sock)).map
             (fun t => Emit.userRemoved t pid peerId))

/-- The get-waiting-participants handler (src/server.js lines 292-301). -/
def handleGetWaiting (s : ServerState) (sock rid : String) : ServerState × List Emit :=
  match mlookup rid s.rooms with
  | none => (s, [])
  | some room =>
    if room.hostId ≠ some sock then (s, [])
    else (s, [ Emit.waitingList sock (room.waitingParticipants.map Prod.snd) ])

/-- The per-room body of the disconnect loop (src/server.js lines
308-357): host departure clears hostId/hostPeerId and broadcasts
host-left via io.to (the departed socket is already out of the socket.io
room), a non-host member departure broadcasts user-left, then the
waiting entry is erased. -/
def disconnectRoomUpdate (sock : String) (rtcAfter : List (String × String))
    (rid : String) (room : Room) : Room × List Emit :=
  let step1 : Room × List Emit :=
    match mlookup sock room.participants with
    | none => (room, [])
    | some p =>
      if room.hostId = some sock then
        ({ room with hostId := none, hostPeerId := none
                     participants := merase sock room.participants },
         (rtcMembers rid rtcAfter).map (fun t => Emit.hostLeft t))
      else
        ({ room with participants := merase sock room.participants },
         ((rtcMembers rid rtcAfter).filter (fun t => t ≠ sock)).map
           (fun t => Emit.userLeft t sock p.peerId))
  ({ step1.1 with waitingParticipants := merase sock step1.1.waitingParticipants }, step1.2)

/-- Whether the per-room disconnect pass left the room fully empty, in
which case the 60-second cleanup check is scheduled. -/
def roomNowEmpty (r : Room) : Bool :=
  r.participants.isEmpty && r.waitingParticipants.isEmpty

/-- The disconnect handler (src/server.js lines 304-358): socket.io first
removes the socket from its rooms, then the handler iterates over every
room of the registry, updates it, and schedules a cleanup check for every
room whose two sets are now both empty. -/
def handleDisconnect (s : ServerState) (sock : String) : ServerState × List Emit :=
  let rtcAfter := rtcLeaveAll sock s.rtc
  let results := s.rooms.map (fun pr => (pr.1, disconnectRoomUpdate sock rtcAfter pr.1 pr.2))
  ({ rooms := results.map (fun pr => (pr.1, pr.2.1))
     rtc := rtcAfter
     connectedSockets := s.connectedSockets.filter (fun c => c ≠ sock)
     pendingChecks :=
       (results.filterMap (fun pr => if roomNowEmpty pr.2.1 then some pr.1 else none))
         ++ s.pendingChecks },
   (results.map (fun pr => pr.2.2)).flatten)

/-- The cleanup timer body (src/server.js lines 346-355): a scheduled
check re-verifies the room still exists and both sets are still empty
before deleting it; a timer that was never scheduled does nothing. -/
def handleCleanup (s : ServerState) (rid : String) : ServerState × List Emit :=
  if rid ∈ s.pendingChecks then
    let s1 : ServerState := { s with pendingChecks := s.pendingChecks.erase rid }
    match mlookup rid s1.rooms with
    | none => (s1, [])
    | some room =>
      if roomNowEmpty room then ({ s1 with rooms := merase rid s1.rooms }, [])
      else (s1, [])
  else (s, [])

/-- The event alphabet of the server. -/
inductive Event where
  | createRoom (rid : String) (now : Nat)
  | connect (sock : String)
  | joinRoom (sock rid username peerId : String) (hostFlag : Bool) (now : Nat)
  | approveParticipant (sock rid pid : String)
  | rejectParticipant (sock rid pid : String)
  | toggleAudio (sock rid peerId : String) (enabled : Bool)
  | toggleVideo (sock rid peerId : String) (enabled : Bool)
  | removeParticipant (sock rid pid peerId : String)
  | getWaiting (sock rid : String)
  | disconnect (sock : String)
  | cleanupTimer (rid : String)
deriving DecidableEq

/-- One step of the server: dispatch the event to its handler. -/
def step (s : ServerState) : Event → ServerState × List Emit
  | .createRoom rid now => handleCreateRoom s rid now
  | .connect sock => handleConnect s sock
  | .joinRoom sock rid username peerId hostFlag now =>
      handleJoinRoom s sock rid username peerId hostFlag now
  | .approveParticipant sock rid pid => handleApprove s sock rid pid
  | .rejectParticipant sock rid pid => handleReject s sock rid pid
  | .toggleAudio sock rid peerId enabled => handleToggleAudio s sock rid peerId enabled
  | .toggleVideo sock rid peerId enabled => handleToggleVideo s sock rid peerId enabled
  | .removeParticipant sock rid pid peerId => handleRemove s sock rid pid peerId
  | .getWaiting sock rid => handleGetWaiting s sock rid
  | .disconnect sock => handleDisconnect s sock
  | .cleanupTimer rid => handleCleanup s rid

/-- Reachability from the empty initial state along events allowed by the
boolean predicate ok (ok restricts traces; fun _ _ => true is the
unrestricted system). -/
inductive Reach (ok : ServerState → Event → Bool) : ServerState → Prop where
  | init : Reach ok initState
  | next {s : ServerState} (e : Event) :
      Reach ok s → ok s e = true → Reach ok (step s e).1

/-- The unrestricted event predicate. -/
def okAll : ServerState → Event → Bool := fun _ _ => true

/-- The room an id maps to, with a dummy default for absent ids (used only
to phrase concrete counterexample states after the presence of the id has
been asserted separately). -/
def roomOf (s : ServerState) (rid : String) : Room :=
  (mlookup rid s.rooms).getD
    { id := rid, participants := [], waitingParticipants := []
      hostId := none, hostPeerId := none, createdAt := 0
      settings := { requireApproval := true, allowedToJoin := [] } }

/-! Concrete traces used by witnesses and counterexamples.  The base
trace: create room r, connect A and B, A joins (admitted host since the
host slot is vacant), B joins (goes to the waiting set), A approves B,
then A disconnects (leaving the room host-less with B still joined). -/

def sHostA1 : ServerState := (step initState (Event.createRoom "r" 0)).1

def sHostA2 : ServerState := (step sHostA1 (Event.connect "A")).1

def sHostA3 : ServerState := (step sHostA2 (Event.connect "B")).1

def sHostA4 : ServerState := (step sHostA3 (Event.joinRoom "A" "r" "ua" "pa" false 1)).1

def sHostA5 : ServerState := (step sHostA4 (Event.joinRoom "B" "r" "ub" "pb" false 2)).1

def sHostA6 : ServerState := (step sHostA5 (Event.approveParticipant "A" "r" "B")).1

def sHostA7 : ServerState := (step sHostA6 (Event.disconnect "A")).1

theorem reach_sHostA1 : Reach okAll sHostA1 :=
  Reach.next (Event.createRoom "r" 0) Reach.init rfl

theorem reach_sHostA2 : Reach okAll sHostA2 :=
  Reach.next (Event.connect "A") reach_sHostA1 rfl

theorem reach_sHostA3 : Reach okAll sHostA3 :=
  Reach.next (Event.connect "B") reach_sHostA2 rfl

theorem reach_sHostA4 : Reach okAll sHostA4 :=
  Reach.next (Event.joinRoom "A" "r" "ua" "pa" false 1) reach_sHostA3 rfl

theorem reach_sHostA5 : Reach okAll sHostA5 :=
  Reach.next (Event.joinRoom "B" "r" "ub" "pb" false 2) reach_sHostA4 rfl

theorem reach_sHostA6 : Reach okAll sHostA6 :=
  Reach.next (Event.approveParticipant "A" "r" "B") reach_sHostA5 rfl

theorem reach_sHostA7 : Reach okAll sHostA7 :=
  Reach.next (Event.disconnect "A") reach_sHostA6 rfl

/-- Claim C9: a join-room request carrying a roomId not present in the
registry emits exactly one room-error to the caller and leaves the whole
server state (registry included) unchanged. -/
theorem c9_join_nonexistent_room (s : ServerState)
    (sock rid username peerId : String) (hostFlag : Bool) (now : Nat)
    (h : mlookup rid s.rooms = none) :
    step s (Event.joinRoom sock rid username peerId hostFlag now) =
      (s, [ Emit.roomError sock "Room does not exist" ]) := by
  simp [step, handleJoinRoom, h]

/-- Witness for C9 at a concrete input: a join against the empty initial
registry fails with room-error and changes nothing. -/
theorem c9_join_nonexistent_room_witness :
    step initState (Event.joinRoom "A" "r" "u" "p" false 0) =
      (initState, [ Emit.roomError "A" "Room does not exist" ]) :=
  c9_join_nonexistent_room initState "A" "r" "u" "p" false 0 (by decide)

/-- Claim C10: approve-participant, reject-participant and
remove-participant answer a nonexistent roomId with exactly the same
error event (and no state change) as they answer an existing room whose
hostId is not the caller, so the two cases are indistinguishable to the
caller and neither is a room-error. -/
theorem c10_host_handlers_nonexistent_room (s s2 : ServerState)
    (sock rid pid peerId rid2 : String) (room2 : Room)
    (h : mlookup rid s.rooms = none)
    (h2 : mlookup rid2 s2.rooms = some room2)
    (hh : room2.hostId ≠ some sock) :
    step s (Event.approveParticipant sock rid pid) =
      (s, [ Emit.errorMessage sock "Unauthorized" ]) ∧
    step s (Event.rejectParticipant sock rid pid) =
      (s, [ Emit.errorMessage sock "Unauthorized" ]) ∧
    step s (Event.removeParticipant sock rid pid peerId) =
      (s, [ Emit.errorMessage sock "Only host can remove participants" ]) ∧
    step s2 (Event.approveParticipant sock rid2 pid) =
      (s2, [ Emit.errorMessage sock "Unauthorized" ]) ∧
    step s2 (Event.rejectParticipant sock rid2 pid) =
      (s2, [ Emit.errorMessage sock "Unauthorized" ]) ∧
    step s2 (Event.removeParticipant sock rid2 pid peerId) =
      (s2, [ Emit.errorMessage sock "Only host can remove participants" ]) := by
  refine ⟨?_, ?_, ?_, ?_, ?_, ?_⟩
  · simp [step, handleApprove, h]
  · simp [step, handleReject, h]
  · simp [step, handleRemove, h]
  · simp [step, handleApprove, h2, hh]
  · simp [step, handleReject, h2, hh]
  · simp [step, handleRemove, h2, hh]

/-- Witness for C10 at concrete inputs: caller Z against the missing room
q in the initial state, and against room r of the base trace whose host
is A. -/
theorem c10_host_handlers_nonexistent_room_witness :
    step initState (Event.approveParticipant "Z" "q" "B") =
      (initState, [ Emit.errorMessage "Z" "Unauthorized" ]) ∧
    step initState (Event.rejectParticipant "Z" "q" "B") =
      (initState, [ Emit.errorMessage "Z" "Unauthorized" ]) ∧
    step initState (Event.removeParticipant "Z" "q" "B" "pb") =
      (initState, [ Emit.errorMessage "Z" "Only host can remove participants" ]) ∧
    step sHostA4 (Event.approveParticipant "Z" "r" "B") =
      (sHostA4, [ Emit.errorMessage "Z" "Unauthorized" ]) ∧
    step sHostA4 (Event.rejectParticipant "Z" "r" "B") =
      (sHostA4, [ Emit.errorMessage "Z" "Unauthorized" ]) ∧
    step sHostA4 (Event.removeParticipant "Z" "r" "B" "pb") =
      (sHostA4, [ Emit.errorMessage "Z" "Only host can remove participants" ]) :=
  c10_host_handlers_nonexistent_room initState sHostA4 "Z" "q" "B" "pb" "r"
    (roomOf sHostA4 "r") (by decide) (by decide) (by decide)

/-- Claim C1 counterexample: the state reached by create r, connect A,
connect B, A joins (admitted host), B joins with the isHost flag set, is
reachable, and in it room r holds TWO participant records with isHost =
true (A's stale record and B's), while hostId is B — refuting the
host-uniqueness invariant as stated.  The join-room handler honors the
isHost flag without demoting the previous host's record. -/
theorem c1_counterexample :
    Reach okAll (step sHostA4 (Event.joinRoom "B" "r" "ub" "pb" true 2)).1 ∧
    (Option.map (fun p => p.isHost)
      (mlookup "A" (roomOf (step sHostA4 (Event.joinRoom "B" "r" "ub" "pb" true 2)).1
        "r").participants) = some true) ∧
    (Option.map (fun p => p.isHost)
      (mlookup "B" (roomOf (step sHostA4 (Event.joinRoom "B" "r" "ub" "pb" true 2)).1
        "r").participants) = some true) ∧
    (roomOf (step sHostA4 (Event.joinRoom "B" "r" "ub" "pb" true 2)).1 "r").hostId =
      some "B" :=
  ⟨Reach.next (Event.joinRoom "B" "r" "ub" "pb" true 2) reach_sHostA4 rfl,
   by decide, by decide, by decide⟩

/-- Claim C2 counterexample: the state reached by create r, connect A,
connect B, A joins (admitted host), then A sends join-room again with the
flag clear, is reachable, and in it A's key is present in BOTH
participants and waitingParticipants of room r — refuting the
disjointness invariant as stated.  The waiting branch of join-room never
checks whether the caller is already a member. -/
theorem c2_counterexample :
    Reach okAll (step sHostA4 (Event.joinRoom "A" "r" "ua" "pa" false 2)).1 ∧
    (mlookup "A" (roomOf (step sHostA4 (Event.joinRoom "A" "r" "ua" "pa" false 2)).1
      "r").participants).isSome = true ∧
    (mlookup "A" (roomOf (step sHostA4 (Event.joinRoom "A" "r" "ua" "pa" false 2)).1
      "r").waitingParticipants).isSome = true :=
  ⟨Reach.next (Event.joinRoom "A" "r" "ua" "pa" false 2) reach_sHostA4 rfl,
   by decide, by decide⟩

/-- Intermediate state for the C5 counterexample: a second room q created
after A already joined room r. -/
def sC5a : ServerState := (step sHostA4 (Event.createRoom "q" 3)).1

theorem reach_sC5a : Reach okAll sC5a :=
  Reach.next (Event.createRoom "q" 3) reach_sHostA4 rfl

/-- Claim C5 counterexample: after A joined room r, creating room q and
letting A join it too is reachable and leaves A's key in the participants
of BOTH rooms r and q — refuting single-room membership as an invariant
of all reachable states.  The join-room handler never checks other
rooms. -/
theorem c5_counterexample :
    Reach okAll (step sC5a (Event.joinRoom "A" "q" "ua" "pa" false 4)).1 ∧
    (mlookup "A" (roomOf (step sC5a (Event.joinRoom "A" "q" "ua" "pa" false 4)).1
      "r").participants).isSome = true ∧
    (mlookup "A" (roomOf (step sC5a (Event.joinRoom "A" "q" "ua" "pa" false 4)).1
      "q").participants).isSome = true ∧
    "r" ≠ "q" :=
  ⟨Reach.next (Event.joinRoom "A" "q" "ua" "pa" false 4) reach_sC5a rfl,
   by decide, by decide, by decide⟩

/-! Trace for the C6 counterexample: create room r and never join it;
an unrelated connection X connects and disconnects; the disconnect
handler's loop over ALL rooms schedules a cleanup check even for rooms
the disconnected socket was never in, and the timer then deletes r. -/

def sC6b : ServerState := (step sHostA1 (Event.connect "X")).1

def sC6c : ServerState := (step sC6b (Event.disconnect "X")).1

theorem reach_sC6b : Reach okAll sC6b :=
  Reach.next (Event.connect "X") reach_sHostA1 rfl

theorem reach_sC6c : Reach okAll sC6c :=
  Reach.next (Event.disconnect "X") reach_sC6b rfl

/-- Claim C6 counterexample: along a trace containing NO join-room event
at all (create r, connect X, disconnect X, timer expiry for r), the
never-joined room r — present right after creation — is deleted from the
registry: the disconnect of the unrelated connection X scheduled a
cleanup check for r and the timer's re-check found it empty.  This
refutes the claim that a never-joined room is never garbage-collected. -/
theorem c6_counterexample :
    Reach okAll (step sC6c (Event.cleanupTimer "r")).1 ∧
    (mlookup "r" sHostA1.rooms).isSome = true ∧
    "r" ∈ sC6c.pendingChecks ∧
    mlookup "r" (step sC6c (Event.cleanupTimer "r")).1.rooms = none :=
  ⟨Reach.next (Event.cleanupTimer "r") reach_sC6c rfl,
   by decide, by decide, by decide⟩

/-- Claim C4 counterexample: after the host A disconnects (room r then
holds only the non-host member B), a new connection C joining with the
flag clear is admitted as host with B still joined: the joined set at the
moment of admission is NOT empty apart from the new host record, and the
room-participants roster sent to C is the hard-coded empty map, different
from the room's current participant list. -/
theorem c4_counterexample :
    Reach okAll sHostA7 ∧
    (step sHostA7 (Event.joinRoom "C" "r" "uc" "pc" false 5)).2 =
      [ Emit.hostStatus "C" true, Emit.roomParticipants "C" [] ] ∧
    (mlookup "B" (roomOf (step sHostA7 (Event.joinRoom "C" "r" "uc" "pc" false 5)).1
      "r").participants).isSome = true ∧
    merase "C" (roomOf (step sHostA7 (Event.joinRoom "C" "r" "uc" "pc" false 5)).1
      "r").participants ≠ [] :=
  ⟨reach_sHostA7, by decide, by decide, by decide⟩

/-- Claim C4 amended: every join-room admitted as host (flag set or host
slot vacant) sends the caller host-status and a hard-coded EMPTY
room-participants roster, and adds the host record to the room's existing
joined set, which is not necessarily empty; only when the room's
participants were empty before the join is the joined set exactly the new
host record, making the empty roster agree with the current participant
list excluding the caller. -/
theorem c4_amended_host_join_roster (s : ServerState)
    (sock rid username peerId : String) (hostFlag : Bool) (now : Nat) (room : Room)
    (h : mlookup rid s.rooms = some room)
    (hadm : hostFlag = true ∨ room.hostId = none) :
    (step s (Event.joinRoom sock rid username peerId hostFlag now)).2 =
      [ Emit.hostStatus sock true, Emit.roomParticipants sock [] ] ∧
    (roomOf (step s (Event.joinRoom sock rid username peerId hostFlag now)).1 rid).hostId =
      some sock ∧
    (roomOf (step s (Event.joinRoom sock rid username peerId hostFlag now)).1
        rid).participants =
      minsert sock
        ({ id := sock, username := username, peerId := peerId, socketId := sock
           joinedAt := now, audioEnabled := true, videoEnabled := true
           isHost := true }) room.participants ∧
    (room.participants = [] →
      merase sock
        ((roomOf (step s (Event.joinRoom sock rid username peerId hostFlag now)).1
          rid).participants) = []) := by
  have hstep :
      step s (Event.joinRoom sock rid username peerId hostFlag now) =
        ({ s with
            rooms := minsert rid
              ({ room with hostId := some sock, hostPeerId := some peerId
                           participants := minsert sock
                             ({ id := sock, username := username, peerId := peerId
                                socketId := sock, joinedAt := now, audioEnabled := true
                                videoEnabled := true, isHost := true }) room.participants })
              s.rooms
            rtc := rtcJoin rid sock s.rtc },
         [ Emit.hostStatus sock true, Emit.roomParticipants sock [] ]) := by
    simp [step, handleJoinRoom, h, if_pos hadm]
  refine ⟨by rw [hstep], ?_, ?_, ?_⟩
  · rw [hstep]
    simp [roomOf, mlookup_minsert]
  · rw [hstep]
    simp [roomOf, mlookup_minsert]
  · intro hemp
    rw [hstep]
    simp [roomOf, mlookup, minsert, merase, hemp]

/-- Witness for the amended C4 at a concrete input: the first join to the
fresh room r of the base trace. -/
theorem c4_amended_host_join_roster_witness :
    (step sHostA3 (Event.joinRoom "A" "r" "ua" "pa" false 1)).2 =
      [ Emit.hostStatus "A" true, Emit.roomParticipants "A" [] ] ∧
    (roomOf (step sHostA3 (Event.joinRoom "A" "r" "ua" "pa" false 1)).1 "r").hostId =
      some "A" ∧
    (roomOf (step sHostA3 (Event.joinRoom "A" "r" "ua" "pa" false 1)).1
        "r").participants =
      minsert "A"
        ({ id := "A", username := "ua", peerId := "pa", socketId := "A"
           joinedAt := 1, audioEnabled := true, videoEnabled := true
           isHost := true }) (roomOf sHostA3 "r").participants ∧
    ((roomOf sHostA3 "r").participants = [] →
      merase "A"
        ((roomOf (step sHostA3 (Event.joinRoom "A" "r" "ua" "pa" false 1)).1
          "r").participants) = []) :=
  c4_amended_host_join_roster sHostA3 "A" "r" "ua" "pa" false 1
    (roomOf sHostA3 "r") (by decide) (by decide)

/-- Claim C3 failing-input evaluation: in the reachable state with host A
and waiting candidate B (both live), A's approval of B produces a
user-joined notification delivered to the CANDIDATE B itself and NO
user-joined notification to the host A — the candidate had already joined
the socket.io room when the handler broadcast with socket.to from the
host's socket, which excludes the sender.  The roster sent to B does
correctly exclude B.  This contradicts the handler's own comment (notify
existing participants about the new user) and the specified behavior. -/
theorem c3_code_bug_eval :
    Reach okAll sHostA5 ∧
    List.count (Emit.userJoined "B" "B" "ub" "pb")
      (step sHostA5 (Event.approveParticipant "A" "r" "B")).2 = 1 ∧
    List.count (Emit.userJoined "A" "B" "ub" "pb")
      (step sHostA5 (Event.approveParticipant "A" "r" "B")).2 = 0 ∧
    Emit.roomParticipants "B"
        (merase "B" (roomOf (step sHostA5 (Event.approveParticipant "A" "r" "B")).1
          "r").participants) ∈
      (step sHostA5 (Event.approveParticipant "A" "r" "B")).2 :=
  ⟨reach_sHostA5, by decide, by decide, by decide⟩

/-- Whether an event is a join-room request targeting the given room. -/
def isJoinTo (r : String) : Event → Bool
  | .joinRoom _ rid _ _ _ _ => rid = r
  | _ => false

theorem roomNowEmpty_iff (room : Room) :
    roomNowEmpty room = true ↔
      (room.participants = [] ∧ room.waitingParticipants = []) := by
  simp [roomNowEmpty, List.isEmpty_iff]

/-- Lookup in the registry after a disconnect: every room is rewritten by
the per-room disconnect pass. -/
theorem mlookup_disconnect_rooms (s : ServerState) (sock j : String) :
    mlookup j ((step s (Event.disconnect sock)).1).rooms =
      (mlookup j s.rooms).map
        (fun room => (disconnectRoomUpdate sock (rtcLeaveAll sock s.rtc) j room).1) := by
  have h := mlookup_map
    (fun k room => (disconnectRoomUpdate sock (rtcLeaveAll sock s.rtc) k room).1) j s.rooms
  simpa [step, handleDisconnect, List.map_map, Function.comp] using h

/-- Claim C8: behavior of the cleanup timer.  First conjunct: a scheduled
check for a room that still exists with both sets empty deletes it.
Second: a room that is non-empty at re-check time survives (registry
unchanged).  Third: a timer firing for an already-deleted room is a
no-op.  Fourth: apart from a join-room targeting the room, no event makes
an empty room's sets non-empty (so if no join intervenes during the grace
window the re-check finds the room still empty). -/
theorem c8_reaper_behavior (s : ServerState) (r : String) :
    (∀ room, r ∈ s.pendingChecks → mlookup r s.rooms = some room →
      room.participants = [] → room.waitingParticipants = [] →
      mlookup r ((step s (Event.cleanupTimer r)).1).rooms = none) ∧
    (∀ room, mlookup r s.rooms = some room →
      ¬(room.participants = [] ∧ room.waitingParticipants = []) →
      ((step s (Event.cleanupTimer r)).1).rooms = s.rooms) ∧
    (mlookup r s.rooms = none →
      ((step s (Event.cleanupTimer r)).1).rooms = s.rooms ∧
      (step s (Event.cleanupTimer r)).2 = []) ∧
    (∀ e room, mlookup r s.rooms = some room →
      room.participants = [] → room.waitingParticipants = [] →
      isJoinTo r e = false →
      (mlookup r ((step s e).1).rooms = none ∨
        ∃ room', mlookup r ((step s e).1).rooms = some room' ∧
          room'.participants = [] ∧ room'.waitingParticipants = [])) := by
  refine ⟨?_, ?_, ?_, ?_⟩
  · intro room hmem h hp hw
    have hemp : roomNowEmpty room = true := (roomNowEmpty_iff room).mpr ⟨hp, hw⟩
    simp [step, handleCleanup, hmem, h, hemp, mlookup_merase]
  · intro room h hne
    have hemp : roomNowEmpty room = false := by
      cases hb : roomNowEmpty room
      · rfl
      · exact absurd ((roomNowEmpty_iff room).mp hb) hne
    by_cases hmem : r ∈ s.pendingChecks
    · simp [step, handleCleanup, hmem, h, hemp]
    · simp [step, handleCleanup, hmem]
  · intro h
    by_cases hmem : r ∈ s.pendingChecks
    · simp [step, handleCleanup, hmem, h]
    · simp [step, handleCleanup, hmem]
  · intro e room h hp hw hnj
    cases e with
    | createRoom rid2 now2 =>
      by_cases hr : rid2 = r
      · subst hr
        right
        refine ⟨{ id := rid2, participants := [], waitingParticipants := []
                  hostId := none, hostPeerId := none, createdAt := now2
                  settings := { requireApproval := true, allowedToJoin := [] } },
                ?_, rfl, rfl⟩
        simp [step, handleCreateRoom, mlookup_minsert]
      · right
        refine ⟨room, ?_, hp, hw⟩
        simpa [step, handleCreateRoom, mlookup_minsert, hr] using h
    | connect sock =>
      right
      exact ⟨room, by simpa [step, handleConnect] using h, hp, hw⟩
    | joinRoom sock rid2 u p f now2 =>
      have hr : ¬ rid2 = r := by
        simpa [isJoinTo] using hnj
      right
      refine ⟨room, ?_, hp, hw⟩
      cases h2 : mlookup rid2 s.rooms with
      | none => simpa [step, handleJoinRoom, h2] using h
      | some room2 =>
        by_cases hb : f = true ∨ room2.hostId = none
        · simpa [step, handleJoinRoom, h2, if_pos hb, mlookup_minsert, hr] using h
        · simpa [step, handleJoinRoom, h2, if_neg hb, mlookup_minsert, hr] using h
    | approveParticipant sock rid2 pid =>
      right
      refine ⟨room, ?_, hp, hw⟩
      cases h2 : mlookup rid2 s.rooms with
      | none => simpa [step, handleApprove, h2] using h
      | some room2 =>
        by_cases hh : room2.hostId = some sock
        · by_cases hr : rid2 = r
          · subst hr
            have : room2 = room := by rw [h2] at h; exact Option.some.inj h
            subst this
            simp [step, handleApprove, h2, hh, hw, mlookup]
          · cases h3 : mlookup pid room2.waitingParticipants with
            | none => simpa [step, handleApprove, h2, hh, h3] using h
            | some w =>
              by_cases hc : pid ∈ s.connectedSockets
              · simpa [step, handleApprove, h2, hh, h3, hc, mlookup_minsert, hr] using h
              · simpa [step, handleApprove, h2, hh, h3, hc, mlookup_minsert, hr] using h
        · simpa [step, handleApprove, h2, hh] using h
    | rejectParticipant sock rid2 pid =>
      right
      refine ⟨room, ?_, hp, hw⟩
      cases h2 : mlookup rid2 s.rooms with
      | none => simpa [step, handleReject, h2] using h
      | some room2 =>
        by_cases hh : room2.hostId = some sock
        · by_cases hr : rid2 = r
          · subst hr
            have : room2 = room := by rw [h2] at h; exact Option.some.inj h
            subst this
            simp [step, handleReject, h2, hh, hw, mlookup]
          · cases h3 : mlookup pid room2.waitingParticipants with
            | none => simpa [step, handleReject, h2, hh, h3] using h
            | some w =>
              by_cases hc : pid ∈ s.connectedSockets
              · simpa [step, handleReject, h2, hh, h3, hc, mlookup_minsert, hr] using h
              · simpa [step, handleReject, h2, hh, h3, hc, mlookup_minsert, hr] using h
        · simpa [step, handleReject, h2, hh] using h
    | toggleAudio sock rid2 p en =>
      right
      refine ⟨room, ?_, hp, hw⟩
      cases h2 : mlookup rid2 s.rooms with
      | none => simpa [step, handleToggleAudio, h2] using h
      | some room2 =>
        by_cases hr : rid2 = r
        · subst hr
          have : room2 = room := by rw [h2] at h; exact Option.some.inj h
          subst this
          simp [step, handleToggleAudio, h2, hp, mlookup]
        · cases h3 : mlookup sock room2.participants with
          | none => simpa [step, handleToggleAudio, h2, h3] using h
          | some p0 => simpa [step, handleToggleAudio, h2, h3, mlookup_minsert, hr] using h
    | toggleVideo sock rid2 p en =>
      right
      refine ⟨room, ?_, hp, hw⟩
      cases h2 : mlookup rid2 s.rooms with
      | none => simpa [step, handleToggleVideo, h2] using h
      | some room2 =>
        by_cases hr : rid2 = r
        · subst hr
          have : room2 = room := by rw [h2] at h; exact Option.some.inj h
          subst this
          simp [step, handleToggleVideo, h2, hp, mlookup]
        · cases h3 : mlookup sock room2.participants with
          | none => simpa [step, handleToggleVideo, h2, h3] using h
          | some p0 => simpa [step, handleToggleVideo, h2, h3, mlookup_minsert, hr] using h
    | removeParticipant sock rid2 pid p =>
      right
      refine ⟨room, ?_, hp, hw⟩
      cases h2 : mlookup rid2 s.rooms with
      | none => simpa [step, handleRemove, h2] using h
      | some room2 =>
        by_cases hh : room2.hostId = some sock
        · by_cases hr : rid2 = r
          · subst hr
            have : room2 = room := by rw [h2] at h; exact Option.some.inj h
            subst this
            simp [step, handleRemove, h2, hh, hp, mlookup]
          · cases h3 : mlookup pid room2.participants with
            | none => simpa [step, handleRemove, h2, hh, h3] using h
            | some p0 => simpa [step, handleRemove, h2, hh, h3, mlookup_minsert, hr] using h
        · simpa [step, handleRemove, h2, hh] using h
    | getWaiting sock rid2 =>
      right
      refine ⟨room, ?_, hp, hw⟩
      cases h2 : mlookup rid2 s.rooms with
      | none => simpa [step, handleGetWaiting, h2] using h
      | some room2 =>
        by_cases hh : room2.hostId = some sock
        · simpa [step, handleGetWaiting, h2, hh] using h
        · simpa [step, handleGetWaiting, h2, hh] using h
    | disconnect sock =>
      right
      rw [mlookup_disconnect_rooms, h]
      refine ⟨_, rfl, ?_, ?_⟩
      · simp [disconnectRoomUpdate, hp, mlookup]
      · simp [disconnectRoomUpdate, hp, hw, mlookup, merase]
    | cleanupTimer rid2 =>
      by_cases hmem : rid2 ∈ s.pendingChecks
      · by_cases hr : rid2 = r
        · subst hr
          left
          have hemp : roomNowEmpty room = true := (roomNowEmpty_iff room).mpr ⟨hp, hw⟩
          simp [step, handleCleanup, hmem, h, hemp, mlookup_merase]
        · right
          refine ⟨room, ?_, hp, hw⟩
          cases h2 : mlookup rid2 s.rooms with
          | none => simpa [step, handleCleanup, hmem, h2] using h
          | some room2 =>
            by_cases hemp2 : roomNowEmpty room2 = true
            · simpa [step, handleCleanup, hmem, h2, hemp2, mlookup_merase, hr] using h
            · simpa [step, handleCleanup, hmem, h2, hemp2] using h
      · right
        exact ⟨room, by simpa [step, handleCleanup, hmem] using h, hp, hw⟩

/-- Witness for C8 at concrete inputs, the never-joined-room trace of C6:
the scheduled check deletes the empty room r, the timer is a no-op once r
is gone, and a connect event does not disturb r's emptiness. -/
theorem c8_reaper_behavior_witness :
    mlookup "r" ((step sC6c (Event.cleanupTimer "r")).1).rooms = none ∧
    (((step (step sC6c (Event.cleanupTimer "r")).1
        (Event.cleanupTimer "r")).1).rooms =
      ((step sC6c (Event.cleanupTimer "r")).1).rooms ∧
     (step (step sC6c (Event.cleanupTimer "r")).1 (Event.cleanupTimer "r")).2 = []) ∧
    (mlookup "r" ((step sC6c (Event.connect "Y")).1).rooms = none ∨
      ∃ room', mlookup "r" ((step sC6c (Event.connect "Y")).1).rooms = some room' ∧
        room'.participants = [] ∧ room'.waitingParticipants = []) :=
  ⟨(c8_reaper_behavior sC6c "r").1 (roomOf sC6c "r") (by decide) (by decide)
      (by decide) (by decide),
   (c8_reaper_behavior (step sC6c (Event.cleanupTimer "r")).1 "r").2.2.1 (by decide),
   (c8_reaper_behavior sC6c "r").2.2.2 (Event.connect "Y") (roomOf sC6c "r")
      (by decide) (by decide) (by decide) (by decide)⟩

theorem mem_of_mlookup {α : Type} {j : String} {v : α} {m : List (String × α)}
    (hl : mlookup j m = some v) : (j, v) ∈ m := by
  induction m with
  | nil => simp [mlookup] at hl
  | cons p ps ih =>
    simp only [mlookup] at hl
    by_cases h : p.1 = j
    · rw [if_pos h] at hl
      have hv : p.2 = v := Option.some.inj hl
      have hpv : (j, v) = p := by
        obtain ⟨a, b⟩ := p
        simp only at h hv
        simp [h, hv]
      exact List.mem_cons.mpr (Or.inl hpv)
    · rw [if_neg h] at hl
      exact List.mem_cons_of_mem _ (ih hl)

theorem mlookup_of_mem_nodup {α : Type} {m : List (String × α)}
    (hnd : (m.map Prod.fst).Nodup) {j : String} {v : α} (hm : (j, v) ∈ m) :
    mlookup j m = some v := by
  induction m with
  | nil => cases hm
  | cons p ps ih =>
    simp only [List.map_cons, List.nodup_cons] at hnd
    rcases List.mem_cons.mp hm with heq | htl
    · rw [← heq]
      simp [mlookup]
    · have hj : j ∈ ps.map Prod.fst := List.mem_map.mpr ⟨(j, v), htl, rfl⟩
      have hne : ¬ p.1 = j := fun he => hnd.1 (he ▸ hj)
      simp only [mlookup, if_neg hne]
      exact ih hnd.2 htl

theorem flatten_nil_of_all_nil {α β : Type} (f : α → List β) (l : List α)
    (h : ∀ a ∈ l, f a = []) : (l.map f).flatten = [] := by
  induction l with
  | nil => rfl
  | cons a l ih =>
    simp only [List.map_cons, List.flatten_cons]
    rw [h a (List.mem_cons_self a l), ih (fun b hb => h b (List.mem_cons_of_mem a hb))]
    rfl

theorem rtcMembers_leaveAll (rid h : String) (rtc : List (String × String)) :
    rtcMembers rid (rtcLeaveAll h rtc) = (rtcMembers rid rtc).filter (fun t => t ≠ h) := by
  induction rtc with
  | nil => rfl
  | cons pr l ih =>
    by_cases h1 : pr.1 = rid
    · by_cases h2 : pr.2 = h
      · simp [rtcMembers, rtcLeaveAll, List.filter_cons, h1, h2, ih] at *
        exact ih
      · simp [rtcMembers, rtcLeaveAll, List.filter_cons, h1, h2] at *
        exact ih
    · by_cases h2 : pr.2 = h
      · simp [rtcMembers, rtcLeaveAll, List.filter_cons, h1, h2] at *
        exact ih
      · simp [rtcMembers, rtcLeaveAll, List.filter_cons, h1, h2] at *
        exact ih

/-- The per-room disconnect pass emits nothing for a room in which the
departing socket holds no participant record. -/
theorem disconnectRoomUpdate_emits_nil (sock : String) (rtcAfter : List (String × String))
    (rid : String) (room : Room) (h : mlookup sock room.participants = none) :
    (disconnectRoomUpdate sock rtcAfter rid room).2 = [] := by
  simp [disconnectRoomUpdate, h]

/-- The per-room disconnect pass for the room whose host departs emits
host-left to exactly the remaining socket.io room members. -/
theorem disconnectRoomUpdate_host (sock : String) (rtcAfter : List (String × String))
    (rid : String) (room : Room) (p : Participant)
    (hm : mlookup sock room.participants = some p) (hh : room.hostId = some sock) :
    disconnectRoomUpdate sock rtcAfter rid room =
      ({ room with hostId := none, hostPeerId := none
                   participants := merase sock room.participants
                   waitingParticipants := merase sock room.waitingParticipants },
       (rtcMembers rid rtcAfter).map (fun t => Emit.hostLeft t)) := by
  simp [disconnectRoomUpdate, hm, hh]

/-- Counting host-left messages in the disconnect handler's output when
every room other than rid holds no record for the departing socket. -/
theorem count_hostLeft_disconnect (h rid x : String) (rtcAfter : List (String × String))
    (room : Room) (p : Participant)
    (l : List (String × Room)) (hnd : (l.map Prod.fst).Nodup)
    (hin : (rid, room) ∈ l)
    (hothers : ∀ pr ∈ l, pr.1 ≠ rid → mlookup h pr.2.participants = none)
    (hhost : room.hostId = some h) (hmem : mlookup h room.participants = some p) :
    List.count (Emit.hostLeft x)
        ((l.map (fun pr => (disconnectRoomUpdate h rtcAfter pr.1 pr.2).2)).flatten) =
      List.count x (rtcMembers rid rtcAfter) := by
  induction l with
  | nil => cases hin
  | cons pr l ih =>
    simp only [List.map_cons, List.nodup_cons] at hnd
    rcases List.mem_cons.mp hin with heq | htl
    · have hrest : (l.map (fun pr => (disconnectRoomUpdate h rtcAfter pr.1 pr.2).2)).flatten
          = [] := by
        apply flatten_nil_of_all_nil
        intro pr2 hpr2
        apply disconnectRoomUpdate_emits_nil
        apply hothers pr2 (List.mem_cons_of_mem pr hpr2)
        intro he
        apply hnd.1
        have hpr1 : pr.1 = rid := by rw [← heq]
        rw [hpr1]
        exact List.mem_map.mpr ⟨pr2, hpr2, he⟩
      rw [List.map_cons, List.flatten_cons, List.count_append, hrest, ← heq]
      rw [disconnectRoomUpdate_host h rtcAfter rid room p hmem hhost]
      have := List.count_map_of_injective (rtcMembers rid rtcAfter)
        (fun t => Emit.hostLeft t) (fun a b hab => by cases hab; rfl) x
      simp [this]
    · have hhd : pr.1 ≠ rid := by
        intro he
        apply hnd.1
        rw [he]
        exact List.mem_map.mpr ⟨(rid, room), htl, rfl⟩
      have hhde : (disconnectRoomUpdate h rtcAfter pr.1 pr.2).2 = [] :=
        disconnectRoomUpdate_emits_nil h rtcAfter pr.1 pr.2
          (hothers pr (List.mem_cons_self pr l) hhd)
      rw [List.map_cons, List.flatten_cons, List.count_append, hhde]
      simp only [List.count_nil, Nat.zero_add]
      exact ih hnd.2 htl (fun pr2 hpr2 => hothers pr2 (List.mem_cons_of_mem pr hpr2))

theorem mlookup_isSome_iff {α : Type} (x : String) (m : List (String × α)) :
    (mlookup x m).isSome = true ↔ x ∈ m.map Prod.fst := by
  induction m with
  | nil => simp [mlookup]
  | cons p ps ih =>
    by_cases h : p.1 = x
    · simp [mlookup, h]
    · simp only [mlookup, if_neg h, List.map_cons, List.mem_cons]
      rw [ih]
      constructor
      · exact Or.inr
      · intro hc
        rcases hc with he | htl
        · exact absurd he.symm h
        · exact htl

/-- Claim C7: when the connection holding hostId of room rid disconnects
(hypotheses: the registry has no duplicate keys, the socket.io room
membership of rid coincides with the joined-participant keys and has no
duplicates, and the host is a member of no other room, as in every
normally-built state), then hostId and hostPeerId become vacant, the
host's participant record is removed, every other member's record is
unchanged, every remaining member receives exactly one host-left event,
and the departed host receives none. -/
theorem c7_host_disconnect (s : ServerState) (rid h : String) (room : Room) (p : Participant)
    (hnodup : (s.rooms.map Prod.fst).Nodup)
    (hroom : mlookup rid s.rooms = some room)
    (hhost : room.hostId = some h)
    (hmem : mlookup h room.participants = some p)
    (hperm : (rtcMembers rid s.rtc).Perm (room.participants.map Prod.fst))
    (hrtcnd : (rtcMembers rid s.rtc).Nodup)
    (hothers : ∀ pr ∈ s.rooms, pr.1 ≠ rid → mlookup h pr.2.participants = none) :
    (∃ room', mlookup rid ((step s (Event.disconnect h)).1).rooms = some room' ∧
      room'.hostId = none ∧ room'.hostPeerId = none ∧
      mlookup h room'.participants = none ∧
      (∀ k, k ≠ h → mlookup k room'.participants = mlookup k room.participants)) ∧
    (∀ x, x ≠ h → (mlookup x room.participants).isSome = true →
      List.count (Emit.hostLeft x) (step s (Event.disconnect h)).2 = 1) ∧
    List.count (Emit.hostLeft h) (step s (Event.disconnect h)).2 = 0 := by
  have hupd := disconnectRoomUpdate_host h (rtcLeaveAll h s.rtc) rid room p hmem hhost
  have hrtc : ∀ x, x ∈ rtcMembers rid s.rtc ↔ (mlookup x room.participants).isSome = true := by
    intro x
    rw [hperm.mem_iff, mlookup_isSome_iff]
  have hmembers : rtcMembers rid (rtcLeaveAll h s.rtc) =
      (rtcMembers rid s.rtc).filter (fun t => t ≠ h) := rtcMembers_leaveAll rid h s.rtc
  have hcount : ∀ x, List.count (Emit.hostLeft x) (step s (Event.disconnect h)).2 =
      List.count x (rtcMembers rid (rtcLeaveAll h s.rtc)) := by
    intro x
    have := count_hostLeft_disconnect h rid x (rtcLeaveAll h s.rtc) room p s.rooms
      hnodup (mem_of_mlookup hroom) hothers hhost hmem
    rw [← this]
    simp only [step, handleDisconnect, List.map_map]
    rfl
  refine ⟨?_, ?_, ?_⟩
  · refine ⟨{ room with hostId := none, hostPeerId := none, participants := merase h room.participants, waitingParticipants := merase h room.waitingParticipants }, ?_, rfl, rfl, ?_, ?_⟩
    · rw [mlookup_disconnect_rooms, hroom]
      simp [hupd]
    · show mlookup h (merase h room.participants) = none
      rw [mlookup_merase, if_pos rfl]
    · intro k hk
      show mlookup k (merase h room.participants) = mlookup k room.participants
      rw [mlookup_merase, if_neg (fun he => hk he.symm)]
  · intro x hx hxm
    rw [hcount, hmembers]
    apply List.count_eq_one_of_mem (hrtcnd.filter _)
    apply List.mem_filter.mpr
    exact ⟨(hrtc x).mpr hxm, by simp [hx]⟩
  · rw [hcount, hmembers]
    apply List.count_eq_zero.mpr
    intro hmemf
    have := List.mem_filter.mp hmemf
    simp at this

/-- Witness for C7 at the concrete base trace (host A, member B): A's
disconnect vacates the host slot, removes A's record, keeps B's record,
delivers exactly one host-left to B and none to A. -/
theorem c7_host_disconnect_witness :
    (∃ room', mlookup "r" ((step sHostA6 (Event.disconnect "A")).1).rooms = some room' ∧
      room'.hostId = none ∧ room'.hostPeerId = none ∧
      mlookup "A" room'.participants = none ∧
      (∀ k, k ≠ "A" → mlookup k room'.participants =
        mlookup k (roomOf sHostA6 "r").participants)) ∧
    (∀ x, x ≠ "A" → (mlookup x (roomOf sHostA6 "r").participants).isSome = true →
      List.count (Emit.hostLeft x) (step sHostA6 (Event.disconnect "A")).2 = 1) ∧
    List.count (Emit.hostLeft "A") (step sHostA6 (Event.disconnect "A")).2 = 0 :=
  c7_host_disconnect sHostA6 "r" "A" (roomOf sHostA6 "r")
    ((mlookup "A" (roomOf sHostA6 "r").participants).getD
      { id := "A", username := "ua", peerId := "pa", socketId := "A", joinedAt := 1
        audioEnabled := true, videoEnabled := true, isHost := true })
    (by decide) (by decide) (by decide) (by decide) (by decide) (by decide) (by decide)

/-- Claim C6 amended: a room whose two sets are both empty — in
particular a room that was created and never joined — survives only until
the next disconnect event: EVERY disconnect, even of a connection that
was never in any room, schedules a cleanup check for every fully-empty
room, and the check's expiry deletes the room if it is still empty.  Such
a room is therefore not retained forever merely because no join-room ever
targeted it. -/
theorem c6_amended_empty_room_reaped (s : ServerState) (r c : String) (room : Room)
    (h : mlookup r s.rooms = some room)
    (hp : room.participants = []) (hw : room.waitingParticipants = []) :
    r ∈ ((step s (Event.disconnect c)).1).pendingChecks ∧
    mlookup r ((step (step s (Event.disconnect c)).1 (Event.cleanupTimer r)).1).rooms =
      none := by
  have hmem : (r, room) ∈ s.rooms := mem_of_mlookup h
  have hempty : roomNowEmpty (disconnectRoomUpdate c (rtcLeaveAll c s.rtc) r room).1 = true := by
    apply (roomNowEmpty_iff _).mpr
    constructor
    · simp [disconnectRoomUpdate, hp, mlookup]
    · simp [disconnectRoomUpdate, hp, hw, mlookup, merase]
  have hpend : r ∈ ((step s (Event.disconnect c)).1).pendingChecks := by
    show r ∈ ((s.rooms.map
        (fun pr => (pr.1, disconnectRoomUpdate c (rtcLeaveAll c s.rtc) pr.1 pr.2))).filterMap
          (fun pr => if roomNowEmpty pr.2.1 then some pr.1 else none)) ++ s.pendingChecks
    apply List.mem_append.mpr
    left
    apply List.mem_filterMap.mpr
    refine ⟨(r, disconnectRoomUpdate c (rtcLeaveAll c s.rtc) r room), ?_, ?_⟩
    · exact List.mem_map.mpr ⟨(r, room), hmem, rfl⟩
    · rw [if_pos hempty]
  have h1 : mlookup r ((step s (Event.disconnect c)).1).rooms =
      some (disconnectRoomUpdate c (rtcLeaveAll c s.rtc) r room).1 := by
    rw [mlookup_disconnect_rooms, h]
    rfl
  have hpend2 : r ∈ (handleDisconnect s c).1.pendingChecks := hpend
  have h12 : mlookup r (handleDisconnect s c).1.rooms =
      some (disconnectRoomUpdate c (rtcLeaveAll c s.rtc) r room).1 := h1
  exact ⟨hpend, by simp [step, handleCleanup, hpend2, h12, hempty, mlookup_merase]⟩

/-- Witness for the amended C6 at a concrete input: the never-joined room
r of the base trace is scheduled for deletion by the disconnect of the
unrelated connection X and deleted at the timer's expiry. -/
theorem c6_amended_empty_room_reaped_witness :
    "r" ∈ ((step sC6b (Event.disconnect "X")).1).pendingChecks ∧
    mlookup "r" ((step (step sC6b (Event.disconnect "X")).1
      (Event.cleanupTimer "r")).1).rooms = none :=
  c6_amended_empty_room_reaped sC6b "r" "X" (roomOf sC6b "r")
    (by decide) (by decide) (by decide)

theorem eq_none_of_isSome_eq_false {α : Type} {o : Option α} (h : o.isSome = false) :
    o = none := by
  cases o
  · rfl
  · simp [Option.isSome] at h

/-- Disjointness of the two key sets of one room. -/
def DisjRoom (room : Room) : Prop :=
  ∀ k, mlookup k room.participants = none ∨ mlookup k room.waitingParticipants = none

/-- Disjointness for every room of a registry. -/
def DisjRooms (m : List (String × Room)) : Prop :=
  ∀ rid room, mlookup rid m = some room → DisjRoom room

theorem DisjRooms_minsert {m : List (String × Room)} {rid : String} {room' : Room}
    (hm : DisjRooms m) (hr : DisjRoom room') : DisjRooms (minsert rid room' m) := by
  intro j r hj
  rw [mlookup_minsert] at hj
  by_cases h : rid = j
  · rw [if_pos h] at hj
    cases Option.some.inj hj
    exact hr
  · rw [if_neg h] at hj
    exact hm j r hj

theorem DisjRooms_merase {m : List (String × Room)} {rid : String}
    (hm : DisjRooms m) : DisjRooms (merase rid m) := by
  intro j r hj
  rw [mlookup_merase] at hj
  by_cases h : rid = j
  · rw [if_pos h] at hj; cases hj
  · rw [if_neg h] at hj
    exact hm j r hj

/-- Trace restriction for the amended C2: no connection sends join-room
to a room in which it is already joined or waiting. -/
def okC2 : ServerState → Event → Bool
  | s, .joinRoom sock rid _ _ _ _ =>
    (match mlookup rid s.rooms with
     | some room => !(mlookup sock room.participants).isSome &&
         !(mlookup sock room.waitingParticipants).isSome
     | none => true)
  | _, _ => true

theorem disj_step (s : ServerState) (e : Event)
    (ih : DisjRooms s.rooms) (hok : okC2 s e = true) :
    DisjRooms ((step s e).1).rooms := by
  cases e with
  | createRoom rid now =>
    apply DisjRooms_minsert ih
    intro k
    exact Or.inl rfl
  | connect sock => exact ih
  | joinRoom sock rid u pid f now =>
    cases h2 : mlookup rid s.rooms with
    | none => simpa [step, handleJoinRoom, h2] using ih
    | some room =>
      simp only [okC2, h2, Bool.and_eq_true, Bool.not_eq_true'] at hok
      have hsp : mlookup sock room.participants = none := eq_none_of_isSome_eq_false hok.1
      have hsw : mlookup sock room.waitingParticipants = none :=
        eq_none_of_isSome_eq_false hok.2
      by_cases hb : f = true ∨ room.hostId = none
      · have : ((step s (Event.joinRoom sock rid u pid f now)).1).rooms =
            minsert rid
              ({ room with hostId := some sock, hostPeerId := some pid
                           participants := minsert sock
                             ({ id := sock, username := u, peerId := pid, socketId := sock
                                joinedAt := now, audioEnabled := true, videoEnabled := true
                                isHost := true }) room.participants }) s.rooms := by
          simp [step, handleJoinRoom, h2, if_pos hb]
        rw [this]
        apply DisjRooms_minsert ih
        intro k
        by_cases hk : sock = k
        · right
          rw [← hk]
          exact hsw
        · have := ih rid room h2 k
          simpa [mlookup_minsert, hk] using this
      · have : ((step s (Event.joinRoom sock rid u pid f now)).1).rooms =
            minsert rid
              ({ room with waitingParticipants :=
                            minsert sock
                              ({ id := sock, username := u, peerId := pid, socketId := sock
                                 joinedAt := now }) room.waitingParticipants }) s.rooms := by
          simp [step, handleJoinRoom, h2, if_neg hb]
        rw [this]
        apply DisjRooms_minsert ih
        intro k
        by_cases hk : sock = k
        · left
          rw [← hk]
          exact hsp
        · have := ih rid room h2 k
          simpa [mlookup_minsert, hk] using this
  | approveParticipant sock rid pid =>
    cases h2 : mlookup rid s.rooms with
    | none => simpa [step, handleApprove, h2] using ih
    | some room =>
      by_cases hh : room.hostId = some sock
      · cases h3 : mlookup pid room.waitingParticipants with
        | none => simpa [step, handleApprove, h2, hh, h3] using ih
        | some w =>
          have hroom' : ∀ s2 : ServerState, s2.rooms =
              minsert rid
                ({ room with participants :=
                              minsert pid
                                ({ id := w.id, username := w.username, peerId := w.peerId
                                   socketId := w.socketId, joinedAt := w.joinedAt
                                   audioEnabled := true, videoEnabled := true
                                   isHost := false }) room.participants
                             waitingParticipants := merase pid room.waitingParticipants })
                s.rooms →
              DisjRooms s2.rooms := by
            intro s2 hs2
            rw [hs2]
            apply DisjRooms_minsert ih
            intro k
            by_cases hk : pid = k
            · right
              rw [mlookup_merase, if_pos hk]
            · have := ih rid room h2 k
              simpa [mlookup_minsert, mlookup_merase, hk] using this
          by_cases hc : pid ∈ s.connectedSockets
          · apply hroom'
            simp [step, handleApprove, h2, hh, h3, hc]
          · apply hroom'
            simp [step, handleApprove, h2, hh, h3, hc]
      · simpa [step, handleApprove, h2, hh] using ih
  | rejectParticipant sock rid pid =>
    cases h2 : mlookup rid s.rooms with
    | none => simpa [step, handleReject, h2] using ih
    | some room =>
      by_cases hh : room.hostId = some sock
      · cases h3 : mlookup pid room.waitingParticipants with
        | none => simpa [step, handleReject, h2, hh, h3] using ih
        | some w =>
          have hroom' : ∀ s2 : ServerState, s2.rooms =
              minsert rid
                ({ room with waitingParticipants := merase pid room.waitingParticipants })
                s.rooms →
              DisjRooms s2.rooms := by
            intro s2 hs2
            rw [hs2]
            apply DisjRooms_minsert ih
            intro k
            rcases ih rid room h2 k with hl | hr
            · exact Or.inl hl
            · right
              rw [mlookup_merase]
              by_cases hk : pid = k
              · rw [if_pos hk]
              · rw [if_neg hk]
                exact hr
          by_cases hc : pid ∈ s.connectedSockets
          · apply hroom'
            simp [step, handleReject, h2, hh, h3, hc]
          · apply hroom'
            simp [step, handleReject, h2, hh, h3, hc]
      · simpa [step, handleReject, h2, hh] using ih
  | toggleAudio sock rid pid en =>
    cases h2 : mlookup rid s.rooms with
    | none => simpa [step, handleToggleAudio, h2] using ih
    | some room =>
      cases h3 : mlookup sock room.participants with
      | none => simpa [step, handleToggleAudio, h2, h3] using ih
      | some p =>
        have : ((step s (Event.toggleAudio sock rid pid en)).1).rooms =
            minsert rid
              ({ room with participants :=
                            minsert sock ({ p with audioEnabled := en }) room.participants })
              s.rooms := by
          simp [step, handleToggleAudio, h2, h3]
        rw [this]
        apply DisjRooms_minsert ih
        intro k
        by_cases hk : sock = k
        · rcases ih rid room h2 k with hl | hr
          · rw [← hk] at hl
            rw [hl] at h3
            cases h3
          · exact Or.inr hr
        · have := ih rid room h2 k
          simpa [mlookup_minsert, hk] using this
  | toggleVideo sock rid pid en =>
    cases h2 : mlookup rid s.rooms with
    | none => simpa [step, handleToggleVideo, h2] using ih
    | some room =>
      cases h3 : mlookup sock room.participants with
      | none => simpa [step, handleToggleVideo, h2, h3] using ih
      | some p =>
        have : ((step s (Event.toggleVideo sock rid pid en)).1).rooms =
            minsert rid
              ({ room with participants :=
                            minsert sock ({ p with videoEnabled := en }) room.participants })
              s.rooms := by
          simp [step, handleToggleVideo, h2, h3]
        rw [this]
        apply DisjRooms_minsert ih
        intro k
        by_cases hk : sock = k
        · rcases ih rid room h2 k with hl | hr
          · rw [← hk] at hl
            rw [hl] at h3
            cases h3
          · exact Or.inr hr
        · have := ih rid room h2 k
          simpa [mlookup_minsert, hk] using this
  | removeParticipant sock rid pid peerId =>
    cases h2 : mlookup rid s.rooms with
    | none => simpa [step, handleRemove, h2] using ih
    | some room =>
      by_cases hh : room.hostId = some sock
      · cases h3 : mlookup pid room.participants with
        | none => simpa [step, handleRemove, h2, hh, h3] using ih
        | some p =>
          have : ((step s (Event.removeParticipant sock rid pid peerId)).1).rooms =
              minsert rid
                ({ room with participants := merase pid room.participants }) s.rooms := by
            simp [step, handleRemove, h2, hh, h3]
          rw [this]
          apply DisjRooms_minsert ih
          intro k
          rcases ih rid room h2 k with hl | hr
          · left
            rw [mlookup_merase]
            by_cases hk : pid = k
            · rw [if_pos hk]
            · rw [if_neg hk]
              exact hl
          · exact Or.inr hr
      · simpa [step, handleRemove, h2, hh] using ih
  | getWaiting sock rid =>
    cases h2 : mlookup rid s.rooms with
    | none => simpa [step, handleGetWaiting, h2] using ih
    | some room =>
      by_cases hh : room.hostId = some sock
      · simpa [step, handleGetWaiting, h2, hh] using ih
      · simpa [step, handleGetWaiting, h2, hh] using ih
  | disconnect sock =>
    intro j r hj
    rw [mlookup_disconnect_rooms] at hj
    cases h0 : mlookup j s.rooms with
    | none => rw [h0] at hj; cases hj
    | some room0 =>
      rw [h0] at hj
      have hr : r = (disconnectRoomUpdate sock (rtcLeaveAll sock s.rtc) j room0).1 :=
        (Option.some.inj hj).symm
      have hd0 := ih j room0 h0
      intro k
      rw [hr]
      cases h3 : mlookup sock room0.participants with
      | none =>
        simp only [disconnectRoomUpdate, h3]
        rcases hd0 k with hl | hw
        · exact Or.inl hl
        · right
          rw [mlookup_merase]
          by_cases hk : sock = k
          · rw [if_pos hk]
          · rw [if_neg hk]
            exact hw
      | some p =>
        by_cases hh : room0.hostId = some sock
        · simp only [disconnectRoomUpdate, h3, if_pos hh]
          rw [mlookup_merase, mlookup_merase]
          by_cases hk : sock = k
          · left
            rw [if_pos hk]
          · rw [if_neg hk, if_neg hk]
            exact hd0 k
        · simp only [disconnectRoomUpdate, h3, if_neg hh]
          rw [mlookup_merase, mlookup_merase]
          by_cases hk : sock = k
          · left
            rw [if_pos hk]
          · rw [if_neg hk, if_neg hk]
            exact hd0 k
  | cleanupTimer rid =>
    by_cases hmem : rid ∈ s.pendingChecks
    · cases h2 : mlookup rid s.rooms with
      | none => simpa [step, handleCleanup, hmem, h2] using ih
      | some room =>
        by_cases hemp : roomNowEmpty room = true
        · have : ((step s (Event.cleanupTimer rid)).1).rooms = merase rid s.rooms := by
            simp [step, handleCleanup, hmem, h2, hemp]
          rw [this]
          exact DisjRooms_merase ih
        · simpa [step, handleCleanup, hmem, h2, hemp] using ih
    · simpa [step, handleCleanup, hmem] using ih

theorem disj_invariant (s : ServerState) (hs : Reach okC2 s) : DisjRooms s.rooms := by
  induction hs with
  | init =>
    intro rid room hr
    cases hr
  | next e hs hok ih => exact disj_step _ e ih hok

/-- Claim C2 amended: in every state reachable along traces in which no
connection sends join-room to a room it is already joined to or waiting
in (predicate okC2), the key sets of participants and waitingParticipants
of every room are disjoint.  (The unrestricted claim is refuted by
c2_counterexample: a joined connection that re-joins lands in both
sets.) -/
theorem c2_amended_disjoint (s : ServerState) (hs : Reach okC2 s)
    (rid : String) (room : Room) (hr : mlookup rid s.rooms = some room) (k : String) :
    mlookup k room.participants = none ∨ mlookup k room.waitingParticipants = none :=
  disj_invariant s hs rid room hr k

theorem reachC2_sHostA6 : Reach okC2 sHostA6 :=
  Reach.next (Event.approveParticipant "A" "r" "B")
    (Reach.next (Event.joinRoom "B" "r" "ub" "pb" false 2)
      (Reach.next (Event.joinRoom "A" "r" "ua" "pa" false 1)
        (Reach.next (Event.connect "B")
          (Reach.next (Event.connect "A")
            (Reach.next (Event.createRoom "r" 0) Reach.init (by decide))
            (by decide))
          (by decide))
        (by decide))
      (by decide))
    (by decide)

/-- Witness for the amended C2 at the concrete base trace state (host A,
member B), a state reachable under the okC2 restriction. -/
theorem c2_amended_disjoint_witness :
    mlookup "B" (roomOf sHostA6 "r").participants = none ∨
    mlookup "B" (roomOf sHostA6 "r").waitingParticipants = none :=
  c2_amended_disjoint sHostA6 reachC2_sHostA6 "r" (roomOf sHostA6 "r") (by decide) "B"

/-- Membership of a connection id in a room (joined or waiting). -/
def InRoom (k : String) (room : Room) : Prop :=
  (mlookup k room.participants).isSome = true ∨
    (mlookup k room.waitingParticipants).isSome = true

/-- Each connection id is in at most one room of the registry. -/
def SingleRoom (m : List (String × Room)) : Prop :=
  ∀ r1 r2 room1 room2 k, mlookup r1 m = some room1 → mlookup r2 m = some room2 →
    InRoom k room1 → InRoom k room2 → r1 = r2

theorem SingleRoom_minsert_shrink {m : List (String × Room)} {rid : String}
    {room room' : Room} (hm : SingleRoom m) (hroom : mlookup rid m = some room)
    (hsub : ∀ k, InRoom k room' → InRoom k room) :
    SingleRoom (minsert rid room' m) := by
  intro r1 r2 room1 room2 k h1 h2 hi1 hi2
  rw [mlookup_minsert] at h1 h2
  by_cases e1 : rid = r1
  · rw [if_pos e1] at h1
    cases Option.some.inj h1
    by_cases e2 : rid = r2
    · rw [← e1, ← e2]
    · rw [if_neg e2] at h2
      exact absurd (hm rid r2 room room2 k hroom h2 (hsub k hi1) hi2) e2
  · rw [if_neg e1] at h1
    by_cases e2 : rid = r2
    · rw [if_pos e2] at h2
      cases Option.some.inj h2
      exact (hm r1 rid room1 room k h1 hroom hi1 (hsub k hi2)).trans e2
    · rw [if_neg e2] at h2
      exact hm r1 r2 room1 room2 k h1 h2 hi1 hi2

theorem SingleRoom_minsert_vacant {m : List (String × Room)} {rid : String} {room' : Room}
    (hm : SingleRoom m) (hvac : ∀ k, ¬ InRoom k room') :
    SingleRoom (minsert rid room' m) := by
  intro r1 r2 room1 room2 k h1 h2 hi1 hi2
  rw [mlookup_minsert] at h1 h2
  by_cases e1 : rid = r1
  · rw [if_pos e1] at h1
    cases Option.some.inj h1
    exact absurd hi1 (hvac k)
  · rw [if_neg e1] at h1
    by_cases e2 : rid = r2
    · rw [if_pos e2] at h2
      cases Option.some.inj h2
      exact absurd hi2 (hvac k)
    · rw [if_neg e2] at h2
      exact hm r1 r2 room1 room2 k h1 h2 hi1 hi2

theorem SingleRoom_minsert_fresh {m : List (String × Room)} {rid sock : String}
    {room room' : Room} (hm : SingleRoom m) (hroom : mlookup rid m = some room)
    (hnew : ∀ r0 room0, mlookup r0 m = some room0 → ¬ InRoom sock room0)
    (hsub : ∀ k, InRoom k room' → InRoom k room ∨ k = sock) :
    SingleRoom (minsert rid room' m) := by
  intro r1 r2 room1 room2 k h1 h2 hi1 hi2
  rw [mlookup_minsert] at h1 h2
  by_cases e1 : rid = r1
  · rw [if_pos e1] at h1
    cases Option.some.inj h1
    by_cases e2 : rid = r2
    · rw [← e1, ← e2]
    · rw [if_neg e2] at h2
      rcases hsub k hi1 with hin | hks
      · exact absurd (hm rid r2 room room2 k hroom h2 hin hi2) e2
      · subst hks
        exact absurd hi2 (hnew r2 room2 h2)
  · rw [if_neg e1] at h1
    by_cases e2 : rid = r2
    · rw [if_pos e2] at h2
      cases Option.some.inj h2
      rcases hsub k hi2 with hin | hks
      · exact (hm r1 rid room1 room k h1 hroom hi1 hin).trans e2
      · subst hks
        exact absurd hi1 (hnew r1 room1 h1)
    · rw [if_neg e2] at h2
      exact hm r1 r2 room1 room2 k h1 h2 hi1 hi2

theorem SingleRoom_merase {m : List (String × Room)} {rid : String}
    (hm : SingleRoom m) : SingleRoom (merase rid m) := by
  intro r1 r2 room1 room2 k h1 h2 hi1 hi2
  rw [mlookup_merase] at h1 h2
  by_cases e1 : rid = r1
  · rw [if_pos e1] at h1
    cases h1
  · rw [if_neg e1] at h1
    by_cases e2 : rid = r2
    · rw [if_pos e2] at h2
      cases h2
    · rw [if_neg e2] at h2
      exact hm r1 r2 room1 room2 k h1 h2 hi1 hi2

theorem InRoom_disconnectUpdate {sock : String} {rtc : List (String × String)}
    {j k : String} {room0 : Room}
    (hi : InRoom k (disconnectRoomUpdate sock rtc j room0).1) : InRoom k room0 := by
  have hgen : ∀ room1 : Room,
      InRoom k ({ room1 with
        waitingParticipants := merase sock room1.waitingParticipants }) →
      InRoom k room1 := by
    intro room1 hi1
    rcases hi1 with hl | hr
    · exact Or.inl hl
    · right
      rw [mlookup_merase] at hr
      by_cases hk : sock = k
      · rw [if_pos hk] at hr
        simp [Option.isSome] at hr
      · rw [if_neg hk] at hr
        exact hr
  cases h3 : mlookup sock room0.participants with
  | none =>
    simp only [disconnectRoomUpdate, h3] at hi
    exact hgen room0 hi
  | some p =>
    by_cases hh : room0.hostId = some sock
    · simp only [disconnectRoomUpdate, h3, if_pos hh] at hi
      rcases hi with hl | hr
      · left
        rw [mlookup_merase] at hl
        by_cases hk : sock = k
        · rw [if_pos hk] at hl
          simp [Option.isSome] at hl
        · rw [if_neg hk] at hl
          exact hl
      · right
        rw [mlookup_merase] at hr
        by_cases hk : sock = k
        · rw [if_pos hk] at hr
          simp [Option.isSome] at hr
        · rw [if_neg hk] at hr
          exact hr
    · simp only [disconnectRoomUpdate, h3, if_neg hh] at hi
      rcases hi with hl | hr
      · left
        rw [mlookup_merase] at hl
        by_cases hk : sock = k
        · rw [if_pos hk] at hl
          simp [Option.isSome] at hl
        · rw [if_neg hk] at hl
          exact hl
      · right
        rw [mlookup_merase] at hr
        by_cases hk : sock = k
        · rw [if_pos hk] at hr
          simp [Option.isSome] at hr
        · rw [if_neg hk] at hr
          exact hr

/-- Trace restriction for the amended C5: no connection sends join-room
while it is already joined or waiting in ANY room of the registry. -/
def okC5 : ServerState → Event → Bool
  | s, .joinRoom sock _ _ _ _ _ =>
      s.rooms.all (fun pr => !(mlookup sock pr.2.participants).isSome &&
        !(mlookup sock pr.2.waitingParticipants).isSome)
  | _, _ => true

theorem singleRoom_step (s : ServerState) (e : Event)
    (ih : SingleRoom s.rooms) (hok : okC5 s e = true) :
    SingleRoom ((step s e).1).rooms := by
  cases e with
  | createRoom rid now =>
    apply SingleRoom_minsert_vacant ih
    intro k hi
    rcases hi with hl | hr
    · simp [mlookup] at hl
    · simp [mlookup] at hr
  | connect sock => exact ih
  | joinRoom sock rid u pid f now =>
    have hnew : ∀ r0 room0, mlookup r0 s.rooms = some room0 → ¬ InRoom sock room0 := by
      intro r0 room0 h0 hin
      have hall := List.all_eq_true.mp hok (r0, room0) (mem_of_mlookup h0)
      simp only [Bool.and_eq_true, Bool.not_eq_true'] at hall
      rcases hin with hl | hr
      · rw [hall.1] at hl
        cases hl
      · rw [hall.2] at hr
        cases hr
    cases h2 : mlookup rid s.rooms with
    | none => simpa [step, handleJoinRoom, h2] using ih
    | some room =>
      by_cases hb : f = true ∨ room.hostId = none
      · have : ((step s (Event.joinRoom sock rid u pid f now)).1).rooms =
            minsert rid
              ({ room with hostId := some sock, hostPeerId := some pid
                           participants := minsert sock
                             ({ id := sock, username := u, peerId := pid, socketId := sock
                                joinedAt := now, audioEnabled := true, videoEnabled := true
                                isHost := true }) room.participants }) s.rooms := by
          simp [step, handleJoinRoom, h2, if_pos hb]
        rw [this]
        apply SingleRoom_minsert_fresh ih h2 hnew
        intro k hi
        rcases hi with hl | hr
        · rw [mlookup_minsert] at hl
          by_cases hk : sock = k
          · exact Or.inr hk.symm
          · rw [if_neg hk] at hl
            exact Or.inl (Or.inl hl)
        · exact Or.inl (Or.inr hr)
      · have : ((step s (Event.joinRoom sock rid u pid f now)).1).rooms =
            minsert rid
              ({ room with waitingParticipants :=
                            minsert sock
                              ({ id := sock, username := u, peerId := pid, socketId := sock
                                 joinedAt := now }) room.waitingParticipants }) s.rooms := by
          simp [step, handleJoinRoom, h2, if_neg hb]
        rw [this]
        apply SingleRoom_minsert_fresh ih h2 hnew
        intro k hi
        rcases hi with hl | hr
        · exact Or.inl (Or.inl hl)
        · rw [mlookup_minsert] at hr
          by_cases hk : sock = k
          · exact Or.inr hk.symm
          · rw [if_neg hk] at hr
            exact Or.inl (Or.inr hr)
  | approveParticipant sock rid pid =>
    cases h2 : mlookup rid s.rooms with
    | none => simpa [step, handleApprove, h2] using ih
    | some room =>
      by_cases hh : room.hostId = some sock
      · cases h3 : mlookup pid room.waitingParticipants with
        | none => simpa [step, handleApprove, h2, hh, h3] using ih
        | some w =>
          have hroom' : ∀ s2 : ServerState, s2.rooms =
              minsert rid
                ({ room with participants :=
                              minsert pid
                                ({ id := w.id, username := w.username, peerId := w.peerId
                                   socketId := w.socketId, joinedAt := w.joinedAt
                                   audioEnabled := true, videoEnabled := true
                                   isHost := false }) room.participants
                             waitingParticipants := merase pid room.waitingParticipants })
                s.rooms →
              SingleRoom s2.rooms := by
            intro s2 hs2
            rw [hs2]
            apply SingleRoom_minsert_shrink ih h2
            intro k hi
            rcases hi with hl | hr
            · rw [mlookup_minsert] at hl
              by_cases hk : pid = k
              · right
                rw [← hk, h3]
                rfl
              · rw [if_neg hk] at hl
                exact Or.inl hl
            · rw [mlookup_merase] at hr
              by_cases hk : pid = k
              · rw [if_pos hk] at hr
                cases hr
              · rw [if_neg hk] at hr
                exact Or.inr hr
          by_cases hc : pid ∈ s.connectedSockets
          · apply hroom'
            simp [step, handleApprove, h2, hh, h3, hc]
          · apply hroom'
            simp [step, handleApprove, h2, hh, h3, hc]
      · simpa [step, handleApprove, h2, hh] using ih
  | rejectParticipant sock rid pid =>
    cases h2 : mlookup rid s.rooms with
    | none => simpa [step, handleReject, h2] using ih
    | some room =>
      by_cases hh : room.hostId = some sock
      · cases h3 : mlookup pid room.waitingParticipants with
        | none => simpa [step, handleReject, h2, hh, h3] using ih
        | some w =>
          have hroom' : ∀ s2 : ServerState, s2.rooms =
              minsert rid
                ({ room with waitingParticipants := merase pid room.waitingParticipants })
                s.rooms →
              SingleRoom s2.rooms := by
            intro s2 hs2
            rw [hs2]
            apply SingleRoom_minsert_shrink ih h2
            intro k hi
            rcases hi with hl | hr
            · exact Or.inl hl
            · rw [mlookup_merase] at hr
              by_cases hk : pid = k
              · rw [if_pos hk] at hr
                cases hr
              · rw [if_neg hk] at hr
                exact Or.inr hr
          by_cases hc : pid ∈ s.connectedSockets
          · apply hroom'
            simp [step, handleReject, h2, hh, h3, hc]
          · apply hroom'
            simp [step, handleReject, h2, hh, h3, hc]
      · simpa [step, handleReject, h2, hh] using ih
  | toggleAudio sock rid pid en =>
    cases h2 : mlookup rid s.rooms with
    | none => simpa [step, handleToggleAudio, h2] using ih
    | some room =>
      cases h3 : mlookup sock room.participants with
      | none => simpa [step, handleToggleAudio, h2, h3] using ih
      | some p =>
        have : ((step s (Event.toggleAudio sock rid pid en)).1).rooms =
            minsert rid
              ({ room with participants :=
                            minsert sock ({ p with audioEnabled := en }) room.participants })
              s.rooms := by
          simp [step, handleToggleAudio, h2, h3]
        rw [this]
        apply SingleRoom_minsert_shrink ih h2
        intro k hi
        rcases hi with hl | hr
        · rw [mlookup_minsert] at hl
          by_cases hk : sock = k
          · left
            rw [← hk, h3]
            rfl
          · rw [if_neg hk] at hl
            exact Or.inl hl
        · exact Or.inr hr
  | toggleVideo sock rid pid en =>
    cases h2 : mlookup rid s.rooms with
    | none => simpa [step, handleToggleVideo, h2] using ih
    | some room =>
      cases h3 : mlookup sock room.participants with
      | none => simpa [step, handleToggleVideo, h2, h3] using ih
      | some p =>
        have : ((step s (Event.toggleVideo sock rid pid en)).1).rooms =
            minsert rid
              ({ room with participants :=
                            minsert sock ({ p with videoEnabled := en }) room.participants })
              s.rooms := by
          simp [step, handleToggleVideo, h2, h3]
        rw [this]
        apply SingleRoom_minsert_shrink ih h2
        intro k hi
        rcases hi with hl | hr
        · rw [mlookup_minsert] at hl
          by_cases hk : sock = k
          · left
            rw [← hk, h3]
            rfl
          · rw [if_neg hk] at hl
            exact Or.inl hl
        · exact Or.inr hr
  | removeParticipant sock rid pid peerId =>
    cases h2 : mlookup rid s.rooms with
    | none => simpa [step, handleRemove, h2] using ih
    | some room =>
      by_cases hh : room.hostId = some sock
      · cases h3 : mlookup pid room.participants with
        | none => simpa [step, handleRemove, h2, hh, h3] using ih
        | some p =>
          have : ((step s (Event.removeParticipant sock rid pid peerId)).1).rooms =
              minsert rid
                ({ room with participants := merase pid room.participants }) s.rooms := by
            simp [step, handleRemove, h2, hh, h3]
          rw [this]
          apply SingleRoom_minsert_shrink ih h2
          intro k hi
          rcases hi with hl | hr
          · rw [mlookup_merase] at hl
            by_cases hk : pid = k
            · rw [if_pos hk] at hl
              cases hl
            · rw [if_neg hk] at hl
              exact Or.inl hl
          · exact Or.inr hr
      · simpa [step, handleRemove, h2, hh] using ih
  | getWaiting sock rid =>
    cases h2 : mlookup rid s.rooms with
    | none => simpa [step, handleGetWaiting, h2] using ih
    | some room =>
      by_cases hh : room.hostId = some sock
      · simpa [step, handleGetWaiting, h2, hh] using ih
      · simpa [step, handleGetWaiting, h2, hh] using ih
  | disconnect sock =>
    intro r1 r2 room1 room2 k h1 h2 hi1 hi2
    rw [mlookup_disconnect_rooms] at h1 h2
    cases h01 : mlookup r1 s.rooms with
    | none =>
      rw [h01] at h1
      cases h1
    | some room01 =>
      cases h02 : mlookup r2 s.rooms with
      | none =>
        rw [h02] at h2
        cases h2
      | some room02 =>
        rw [h01] at h1
        rw [h02] at h2
        have e1 : room1 = (disconnectRoomUpdate sock (rtcLeaveAll sock s.rtc) r1 room01).1 :=
          (Option.some.inj h1).symm
        have e2 : room2 = (disconnectRoomUpdate sock (rtcLeaveAll sock s.rtc) r2 room02).1 :=
          (Option.some.inj h2).symm
        rw [e1] at hi1
        rw [e2] at hi2
        exact ih r1 r2 room01 room02 k h01 h02
          (InRoom_disconnectUpdate hi1) (InRoom_disconnectUpdate hi2)
  | cleanupTimer rid =>
    by_cases hmem : rid ∈ s.pendingChecks
    · cases h2 : mlookup rid s.rooms with
      | none => simpa [step, handleCleanup, hmem, h2] using ih
      | some room =>
        by_cases hemp : roomNowEmpty room = true
        · have : ((step s (Event.cleanupTimer rid)).1).rooms = merase rid s.rooms := by
            simp [step, handleCleanup, hmem, h2, hemp]
          rw [this]
          exact SingleRoom_merase ih
        · simpa [step, handleCleanup, hmem, h2, hemp] using ih
    · simpa [step, handleCleanup, hmem] using ih

theorem singleRoom_invariant (s : ServerState) (hs : Reach okC5 s) : SingleRoom s.rooms := by
  induction hs with
  | init =>
    intro r1 r2 room1 room2 k h1 h2 hi1 hi2
    cases h1
  | next e hs hok ih => exact singleRoom_step _ e ih hok

/-- Claim C5 amended: in every state reachable along traces in which no
connection sends join-room while it is already joined or waiting in some
room (predicate okC5), each connection id occurs in at most one room of
the registry.  (The unrestricted claim is refuted by c5_counterexample:
join-room never checks other rooms, so a joined connection that joins a
second room is in both.) -/
theorem c5_amended_single_room (s : ServerState) (hs : Reach okC5 s)
    (r1 r2 : String) (room1 room2 : Room) (k : String)
    (h1 : mlookup r1 s.rooms = some room1) (h2 : mlookup r2 s.rooms = some room2)
    (hk1 : InRoom k room1) (hk2 : InRoom k room2) : r1 = r2 :=
  singleRoom_invariant s hs r1 r2 room1 room2 k h1 h2 hk1 hk2

theorem reachC5_sHostA6 : Reach okC5 sHostA6 :=
  Reach.next (Event.approveParticipant "A" "r" "B")
    (Reach.next (Event.joinRoom "B" "r" "ub" "pb" false 2)
      (Reach.next (Event.joinRoom "A" "r" "ua" "pa" false 1)
        (Reach.next (Event.connect "B")
          (Reach.next (Event.connect "A")
            (Reach.next (Event.createRoom "r" 0) Reach.init (by decide))
            (by decide))
          (by decide))
        (by decide))
      (by decide))
    (by decide)

/-- Witness for the amended C5 at the concrete base trace state, a state
reachable under the okC5 restriction, instantiating both rooms at r. -/
theorem c5_amended_single_room_witness : "r" = "r" :=
  c5_amended_single_room sHostA6 reachC5_sHostA6 "r" "r"
    (roomOf sHostA6 "r") (roomOf sHostA6 "r") "B" (by decide) (by decide)
    (Or.inl (by decide)) (Or.inl (by decide))

/-- The inductive invariant for the amended C1: record ids match their
keys, the two key sets are disjoint, an occupied host slot points at an
isHost record, and every isHost record is the one the host slot points
at. -/
structure HostRoomInv (room : Room) : Prop where
  pid_eq : ∀ k p, mlookup k room.participants = some p → p.id = k
  wid_eq : ∀ k w, mlookup k room.waitingParticipants = some w → w.id = k
  disj : ∀ k, mlookup k room.participants = none ∨ mlookup k room.waitingParticipants = none
  host_mem : ∀ h, room.hostId = some h →
    ∃ p, mlookup h room.participants = some p ∧ p.isHost = true
  host_unique : ∀ k p, mlookup k room.participants = some p → p.isHost = true →
    room.hostId = some k

/-- The invariant over every room of a registry. -/
def HostRoomsInv (m : List (String × Room)) : Prop :=
  ∀ rid room, mlookup rid m = some room → HostRoomInv room

theorem HostRoomsInv_minsert {m : List (String × Room)} {rid : String} {room' : Room}
    (hm : HostRoomsInv m) (hr : HostRoomInv room') : HostRoomsInv (minsert rid room' m) := by
  intro j r hj
  rw [mlookup_minsert] at hj
  by_cases h : rid = j
  · rw [if_pos h] at hj
    cases Option.some.inj hj
    exact hr
  · rw [if_neg h] at hj
    exact hm j r hj

theorem HostRoomsInv_merase {m : List (String × Room)} {rid : String}
    (hm : HostRoomsInv m) : HostRoomsInv (merase rid m) := by
  intro j r hj
  rw [mlookup_merase] at hj
  by_cases h : rid = j
  · rw [if_pos h] at hj
    cases hj
  · rw [if_neg h] at hj
    exact hm j r hj

/-- Trace restriction for the amended C1: a join-room with the isHost
flag set only happens while the room's host slot is vacant, no connection
sends join-room to a room it is already in, and the host never targets
itself with remove-participant. -/
def okC1 : ServerState → Event → Bool
  | s, .joinRoom sock rid _ _ f _ =>
      (match mlookup rid s.rooms with
       | some room => (!f || decide (room.hostId = none)) &&
           (!(mlookup sock room.participants).isSome &&
            !(mlookup sock room.waitingParticipants).isSome)
       | none => true)
  | _, .removeParticipant sock _ pid _ => pid != sock
  | _, _ => true

theorem HostRoomInv_disconnectUpdate (sock : String) (rtc : List (String × String))
    (j : String) (room0 : Room) (h0 : HostRoomInv room0) :
    HostRoomInv (disconnectRoomUpdate sock rtc j room0).1 := by
  cases h3 : mlookup sock room0.participants with
  | none =>
    simp only [disconnectRoomUpdate, h3]
    refine ⟨h0.pid_eq, ?_, ?_, h0.host_mem, h0.host_unique⟩
    · intro k w hw
      rw [mlookup_merase] at hw
      by_cases hk : sock = k
      · rw [if_pos hk] at hw
        cases hw
      · rw [if_neg hk] at hw
        exact h0.wid_eq k w hw
    · intro k
      rcases h0.disj k with hl | hr
      · exact Or.inl hl
      · right
        rw [mlookup_merase]
        by_cases hk : sock = k
        · rw [if_pos hk]
        · rw [if_neg hk]
          exact hr
  | some p =>
    by_cases hh : room0.hostId = some sock
    · simp only [disconnectRoomUpdate, h3, if_pos hh]
      refine ⟨?_, ?_, ?_, ?_, ?_⟩
      · intro k q hq
        rw [mlookup_merase] at hq
        by_cases hk : sock = k
        · rw [if_pos hk] at hq
          cases hq
        · rw [if_neg hk] at hq
          exact h0.pid_eq k q hq
      · intro k w hw
        rw [mlookup_merase] at hw
        by_cases hk : sock = k
        · rw [if_pos hk] at hw
          cases hw
        · rw [if_neg hk] at hw
          exact h0.wid_eq k w hw
      · intro k
        rw [mlookup_merase]
        by_cases hk : sock = k
        · exact Or.inl (if_pos hk)
        · rw [if_neg hk]
          rcases h0.disj k with hl | hr
          · exact Or.inl hl
          · right
            rw [mlookup_merase, if_neg hk]
            exact hr
      · intro h hcontra
        cases hcontra
      · intro k q hq hqhost
        rw [mlookup_merase] at hq
        by_cases hk : sock = k
        · rw [if_pos hk] at hq
          cases hq
        · rw [if_neg hk] at hq
          have := h0.host_unique k q hq hqhost
          rw [hh] at this
          exact absurd (Option.some.inj this) hk
    · simp only [disconnectRoomUpdate, h3, if_neg hh]
      refine ⟨?_, ?_, ?_, ?_, ?_⟩
      · intro k q hq
        rw [mlookup_merase] at hq
        by_cases hk : sock = k
        · rw [if_pos hk] at hq
          cases hq
        · rw [if_neg hk] at hq
          exact h0.pid_eq k q hq
      · intro k w hw
        rw [mlookup_merase] at hw
        by_cases hk : sock = k
        · rw [if_pos hk] at hw
          cases hw
        · rw [if_neg hk] at hw
          exact h0.wid_eq k w hw
      · intro k
        rw [mlookup_merase]
        by_cases hk : sock = k
        · exact Or.inl (if_pos hk)
        · rw [if_neg hk]
          rcases h0.disj k with hl | hr
          · exact Or.inl hl
          · right
            rw [mlookup_merase, if_neg hk]
            exact hr
      · intro h hhid
        have hhid2 : room0.hostId = some h := hhid
        obtain ⟨q, hq, hqhost⟩ := h0.host_mem h hhid2
        have hsk : ¬ sock = h := by
          intro he
          apply hh
          rw [he]
          exact hhid2
        refine ⟨q, ?_, hqhost⟩
        rw [mlookup_merase, if_neg hsk]
        exact hq
      · intro k q hq hqhost
        rw [mlookup_merase] at hq
        by_cases hk : sock = k
        · rw [if_pos hk] at hq
          cases hq
        · rw [if_neg hk] at hq
          exact h0.host_unique k q hq hqhost

theorem hostInv_step (s : ServerState) (e : Event)
    (ih : HostRoomsInv s.rooms) (hok : okC1 s e = true) :
    HostRoomsInv ((step s e).1).rooms := by
  cases e with
  | createRoom rid now =>
    apply HostRoomsInv_minsert ih
    refine ⟨?_, ?_, ?_, ?_, ?_⟩
    · intro k p hp
      simp [mlookup] at hp
    · intro k w hw
      simp [mlookup] at hw
    · intro k
      exact Or.inl rfl
    · intro h hh
      cases hh
    · intro k p hp
      simp [mlookup] at hp
  | connect sock => exact ih
  | joinRoom sock rid u pid f now =>
    cases h2 : mlookup rid s.rooms with
    | none => simpa [step, handleJoinRoom, h2] using ih
    | some room =>
      simp only [okC1, h2, Bool.and_eq_true, Bool.or_eq_true, Bool.not_eq_true',
        decide_eq_true_eq] at hok
      have hsp : mlookup sock room.participants = none :=
        eq_none_of_isSome_eq_false hok.2.1
      have hsw : mlookup sock room.waitingParticipants = none :=
        eq_none_of_isSome_eq_false hok.2.2
      have ihroom := ih rid room h2
      by_cases hb : f = true ∨ room.hostId = none
      · have hnone : room.hostId = none := by
          rcases hb with hf | hn
          · rcases hok.1 with hff | hn2
            · rw [hff] at hf
              cases hf
            · exact hn2
          · exact hn
        have : ((step s (Event.joinRoom sock rid u pid f now)).1).rooms =
            minsert rid
              ({ room with hostId := some sock, hostPeerId := some pid
                           participants := minsert sock
                             ({ id := sock, username := u, peerId := pid, socketId := sock
                                joinedAt := now, audioEnabled := true, videoEnabled := true
                                isHost := true }) room.participants }) s.rooms := by
          simp [step, handleJoinRoom, h2, if_pos hb]
        rw [this]
        apply HostRoomsInv_minsert ih
        refine ⟨?_, ihroom.wid_eq, ?_, ?_, ?_⟩
        · intro k p hp
          rw [mlookup_minsert] at hp
          by_cases hk : sock = k
          · rw [if_pos hk] at hp
            cases Option.some.inj hp
            exact hk
          · rw [if_neg hk] at hp
            exact ihroom.pid_eq k p hp
        · intro k
          rw [mlookup_minsert]
          by_cases hk : sock = k
          · right
            rw [← hk]
            exact hsw
          · rw [if_neg hk]
            exact ihroom.disj k
        · intro h hh
          cases Option.some.inj hh
          refine ⟨{ id := sock, username := u, peerId := pid, socketId := sock
                    joinedAt := now, audioEnabled := true, videoEnabled := true
                    isHost := true }, ?_, rfl⟩
          rw [mlookup_minsert, if_pos rfl]
        · intro k p hp hphost
          rw [mlookup_minsert] at hp
          by_cases hk : sock = k
          · rw [hk]
          · rw [if_neg hk] at hp
            have := ihroom.host_unique k p hp hphost
            rw [hnone] at this
            cases this
      · have : ((step s (Event.joinRoom sock rid u pid f now)).1).rooms =
            minsert rid
              ({ room with waitingParticipants :=
                            minsert sock
                              ({ id := sock, username := u, peerId := pid, socketId := sock
                                 joinedAt := now }) room.waitingParticipants }) s.rooms := by
          simp [step, handleJoinRoom, h2, if_neg hb]
        rw [this]
        apply HostRoomsInv_minsert ih
        refine ⟨ihroom.pid_eq, ?_, ?_, ihroom.host_mem, ihroom.host_unique⟩
        · intro k w hw
          rw [mlookup_minsert] at hw
          by_cases hk : sock = k
          · rw [if_pos hk] at hw
            cases Option.some.inj hw
            exact hk
          · rw [if_neg hk] at hw
            exact ihroom.wid_eq k w hw
        · intro k
          by_cases hk : sock = k
          · left
            rw [← hk]
            exact hsp
          · rw [mlookup_minsert, if_neg hk]
            rcases ihroom.disj k with hl | hr
            · exact Or.inl hl
            · exact Or.inr hr
  | approveParticipant sock rid pid =>
    cases h2 : mlookup rid s.rooms with
    | none => simpa [step, handleApprove, h2] using ih
    | some room =>
      by_cases hh : room.hostId = some sock
      · cases h3 : mlookup pid room.waitingParticipants with
        | none => simpa [step, handleApprove, h2, hh, h3] using ih
        | some w =>
          have ihroom := ih rid room h2
          obtain ⟨phost, hplook, hphost⟩ := ihroom.host_mem sock hh
          have hpidne : ¬ pid = sock := by
            intro he
            rcases ihroom.disj sock with hl | hr
            · rw [hplook] at hl
              cases hl
            · rw [he] at h3
              rw [hr] at h3
              cases h3
          have hroom' : ∀ s2 : ServerState, s2.rooms =
              minsert rid
                ({ room with participants :=
                              minsert pid
                                ({ id := w.id, username := w.username, peerId := w.peerId
                                   socketId := w.socketId, joinedAt := w.joinedAt
                                   audioEnabled := true, videoEnabled := true
                                   isHost := false }) room.participants
                             waitingParticipants := merase pid room.waitingParticipants })
                s.rooms →
              HostRoomsInv s2.rooms := by
            intro s2 hs2
            rw [hs2]
            apply HostRoomsInv_minsert ih
            refine ⟨?_, ?_, ?_, ?_, ?_⟩
            · intro k p hp
              rw [mlookup_minsert] at hp
              by_cases hk : pid = k
              · rw [if_pos hk] at hp
                cases Option.some.inj hp
                rw [← hk]
                exact ihroom.wid_eq pid w h3
              · rw [if_neg hk] at hp
                exact ihroom.pid_eq k p hp
            · intro k w2 hw
              rw [mlookup_merase] at hw
              by_cases hk : pid = k
              · rw [if_pos hk] at hw
                cases hw
              · rw [if_neg hk] at hw
                exact ihroom.wid_eq k w2 hw
            · intro k
              rw [mlookup_minsert]
              by_cases hk : pid = k
              · right
                rw [mlookup_merase, if_pos hk]
              · rw [if_neg hk]
                rcases ihroom.disj k with hl | hr
                · exact Or.inl hl
                · right
                  rw [mlookup_merase, if_neg hk]
                  exact hr
            · intro h hhid
              have hhid2 : room.hostId = some h := hhid
              rw [hh] at hhid2
              cases Option.some.inj hhid2
              refine ⟨phost, ?_, hphost⟩
              rw [mlookup_minsert, if_neg hpidne]
              exact hplook
            · intro k p hp hphost2
              rw [mlookup_minsert] at hp
              by_cases hk : pid = k
              · rw [if_pos hk] at hp
                cases Option.some.inj hp
                cases hphost2
              · rw [if_neg hk] at hp
                exact ihroom.host_unique k p hp hphost2
          by_cases hc : pid ∈ s.connectedSockets
          · apply hroom'
            simp [step, handleApprove, h2, hh, h3, hc]
          · apply hroom'
            simp [step, handleApprove, h2, hh, h3, hc]
      · simpa [step, handleApprove, h2, hh] using ih
  | rejectParticipant sock rid pid =>
    cases h2 : mlookup rid s.rooms with
    | none => simpa [step, handleReject, h2] using ih
    | some room =>
      by_cases hh : room.hostId = some sock
      · cases h3 : mlookup pid room.waitingParticipants with
        | none => simpa [step, handleReject, h2, hh, h3] using ih
        | some w =>
          have ihroom := ih rid room h2
          have hroom' : ∀ s2 : ServerState, s2.rooms =
              minsert rid
                ({ room with waitingParticipants := merase pid room.waitingParticipants })
                s.rooms →
              HostRoomsInv s2.rooms := by
            intro s2 hs2
            rw [hs2]
            apply HostRoomsInv_minsert ih
            refine ⟨ihroom.pid_eq, ?_, ?_, ihroom.host_mem, ihroom.host_unique⟩
            · intro k w2 hw
              rw [mlookup_merase] at hw
              by_cases hk : pid = k
              · rw [if_pos hk] at hw
                cases hw
              · rw [if_neg hk] at hw
                exact ihroom.wid_eq k w2 hw
            · intro k
              rcases ihroom.disj k with hl | hr
              · exact Or.inl hl
              · right
                rw [mlookup_merase]
                by_cases hk : pid = k
                · rw [if_pos hk]
                · rw [if_neg hk]
                  exact hr
          by_cases hc : pid ∈ s.connectedSockets
          · apply hroom'
            simp [step, handleReject, h2, hh, h3, hc]
          · apply hroom'
            simp [step, handleReject, h2, hh, h3, hc]
      · simpa [step, handleReject, h2, hh] using ih
  | toggleAudio sock rid pid en =>
    cases h2 : mlookup rid s.rooms with
    | none => simpa [step, handleToggleAudio, h2] using ih
    | some room =>
      cases h3 : mlookup sock room.participants with
      | none => simpa [step, handleToggleAudio, h2, h3] using ih
      | some p =>
        have ihroom := ih rid room h2
        have : ((step s (Event.toggleAudio sock rid pid en)).1).rooms =
            minsert rid
              ({ room with participants :=
                            minsert sock ({ p with audioEnabled := en }) room.participants })
              s.rooms := by
          simp [step, handleToggleAudio, h2, h3]
        rw [this]
        apply HostRoomsInv_minsert ih
        refine ⟨?_, ihroom.wid_eq, ?_, ?_, ?_⟩
        · intro k q hq
          rw [mlookup_minsert] at hq
          by_cases hk : sock = k
          · rw [if_pos hk] at hq
            cases Option.some.inj hq
            rw [← hk]
            exact ihroom.pid_eq sock p h3
          · rw [if_neg hk] at hq
            exact ihroom.pid_eq k q hq
        · intro k
          rw [mlookup_minsert]
          by_cases hk : sock = k
          · right
            rcases ihroom.disj k with hl | hr
            · rw [← hk] at hl
              rw [hl] at h3
              cases h3
            · exact hr
          · rw [if_neg hk]
            exact ihroom.disj k
        · intro h hhid
          have hhid2 : room.hostId = some h := hhid
          obtain ⟨q, hq, hqhost⟩ := ihroom.host_mem h hhid2
          rw [mlookup_minsert]
          by_cases hk : sock = h
          · rw [if_pos hk]
            refine ⟨_, rfl, ?_⟩
            rw [← hk] at hq
            rw [h3] at hq
            cases Option.some.inj hq
            exact hqhost
          · rw [if_neg hk]
            exact ⟨q, hq, hqhost⟩
        · intro k q hq hqhost
          rw [mlookup_minsert] at hq
          by_cases hk : sock = k
          · rw [if_pos hk] at hq
            cases Option.some.inj hq
            have : room.hostId = some sock := ihroom.host_unique sock p h3 hqhost
            rw [← hk]
            exact this
          · rw [if_neg hk] at hq
            exact ihroom.host_unique k q hq hqhost
  | toggleVideo sock rid pid en =>
    cases h2 : mlookup rid s.rooms with
    | none => simpa [step, handleToggleVideo, h2] using ih
    | some room =>
      cases h3 : mlookup sock room.participants with
      | none => simpa [step, handleToggleVideo, h2, h3] using ih
      | some p =>
        have ihroom := ih rid room h2
        have : ((step s (Event.toggleVideo sock rid pid en)).1).rooms =
            minsert rid
              ({ room with participants :=
                            minsert sock ({ p with videoEnabled := en }) room.participants })
              s.rooms := by
          simp [step, handleToggleVideo, h2, h3]
        rw [this]
        apply HostRoomsInv_minsert ih
        refine ⟨?_, ihroom.wid_eq, ?_, ?_, ?_⟩
        · intro k q hq
          rw [mlookup_minsert] at hq
          by_cases hk : sock = k
          · rw [if_pos hk] at hq
            cases Option.some.inj hq
            rw [← hk]
            exact ihroom.pid_eq sock p h3
          · rw [if_neg hk] at hq
            exact ihroom.pid_eq k q hq
        · intro k
          rw [mlookup_minsert]
          by_cases hk : sock = k
          · right
            rcases ihroom.disj k with hl | hr
            · rw [← hk] at hl
              rw [hl] at h3
              cases h3
            · exact hr
          · rw [if_neg hk]
            exact ihroom.disj k
        · intro h hhid
          have hhid2 : room.hostId = some h := hhid
          obtain ⟨q, hq, hqhost⟩ := ihroom.host_mem h hhid2
          rw [mlookup_minsert]
          by_cases hk : sock = h
          · rw [if_pos hk]
            refine ⟨_, rfl, ?_⟩
            rw [← hk] at hq
            rw [h3] at hq
            cases Option.some.inj hq
            exact hqhost
          · rw [if_neg hk]
            exact ⟨q, hq, hqhost⟩
        · intro k q hq hqhost
          rw [mlookup_minsert] at hq
          by_cases hk : sock = k
          · rw [if_pos hk] at hq
            cases Option.some.inj hq
            have : room.hostId = some sock := ihroom.host_unique sock p h3 hqhost
            rw [← hk]
            exact this
          · rw [if_neg hk] at hq
            exact ihroom.host_unique k q hq hqhost
  | removeParticipant sock rid pid peerId =>
    have hpidsock : ¬ pid = sock := by
      simpa [okC1, bne_iff_ne] using hok
    cases h2 : mlookup rid s.rooms with
    | none => simpa [step, handleRemove, h2] using ih
    | some room =>
      by_cases hh : room.hostId = some sock
      · cases h3 : mlookup pid room.participants with
        | none => simpa [step, handleRemove, h2, hh, h3] using ih
        | some p =>
          have ihroom := ih rid room h2
          have : ((step s (Event.removeParticipant sock rid pid peerId)).1).rooms =
              minsert rid
                ({ room with participants := merase pid room.participants }) s.rooms := by
            simp [step, handleRemove, h2, hh, h3]
          rw [this]
          apply HostRoomsInv_minsert ih
          refine ⟨?_, ihroom.wid_eq, ?_, ?_, ?_⟩
          · intro k q hq
            rw [mlookup_merase] at hq
            by_cases hk : pid = k
            · rw [if_pos hk] at hq
              cases hq
            · rw [if_neg hk] at hq
              exact ihroom.pid_eq k q hq
          · intro k
            rw [mlookup_merase]
            by_cases hk : pid = k
            · exact Or.inl (if_pos hk)
            · rw [if_neg hk]
              exact ihroom.disj k
          · intro h hhid
            have hhid2 : room.hostId = some h := hhid
            obtain ⟨q, hq, hqhost⟩ := ihroom.host_mem h hhid2
            have hne : ¬ pid = h := by
              intro he
              apply hpidsock
              rw [hh] at hhid2
              rw [he, Option.some.inj hhid2]
            refine ⟨q, ?_, hqhost⟩
            rw [mlookup_merase, if_neg hne]
            exact hq
          · intro k q hq hqhost
            rw [mlookup_merase] at hq
            by_cases hk : pid = k
            · rw [if_pos hk] at hq
              cases hq
            · rw [if_neg hk] at hq
              exact ihroom.host_unique k q hq hqhost
      · simpa [step, handleRemove, h2, hh] using ih
  | getWaiting sock rid =>
    cases h2 : mlookup rid s.rooms with
    | none => simpa [step, handleGetWaiting, h2] using ih
    | some room =>
      by_cases hh : room.hostId = some sock
      · simpa [step, handleGetWaiting, h2, hh] using ih
      · simpa [step, handleGetWaiting, h2, hh] using ih
  | disconnect sock =>
    intro j r hj
    rw [mlookup_disconnect_rooms] at hj
    cases h0 : mlookup j s.rooms with
    | none =>
      rw [h0] at hj
      cases hj
    | some room0 =>
      rw [h0] at hj
      have hr : r = (disconnectRoomUpdate sock (rtcLeaveAll sock s.rtc) j room0).1 :=
        (Option.some.inj hj).symm
      rw [hr]
      exact HostRoomInv_disconnectUpdate sock (rtcLeaveAll sock s.rtc) j room0 (ih j room0 h0)
  | cleanupTimer rid =>
    by_cases hmem : rid ∈ s.pendingChecks
    · cases h2 : mlookup rid s.rooms with
      | none => simpa [step, handleCleanup, hmem, h2] using ih
      | some room =>
        by_cases hemp : roomNowEmpty room = true
        · have : ((step s (Event.cleanupTimer rid)).1).rooms = merase rid s.rooms := by
            simp [step, handleCleanup, hmem, h2, hemp]
          rw [this]
          exact HostRoomsInv_merase ih
        · simpa [step, handleCleanup, hmem, h2, hemp] using ih
    · simpa [step, handleCleanup, hmem] using ih

theorem hostInv_invariant (s : ServerState) (hs : Reach okC1 s) : HostRoomsInv s.rooms := by
  induction hs with
  | init =>
    intro rid room hr
    cases hr
  | next e hs hok ih => exact hostInv_step _ e ih hok

/-- Claim C1 amended: in every state reachable along traces in which a
join-room with the isHost flag is only sent while the room's host slot is
vacant, no connection joins a room it is already in, and the host never
removes itself (predicate okC1), every room has at most one participant
record with isHost = true; when hostId is present the isHost participant
is exactly the one whose id equals hostId; and an isHost participant
exists if and only if the host slot holds its id.  (The unrestricted
claim is refuted by c1_counterexample: a flag-carrying join seizes the
host slot without demoting the previous host's record.) -/
theorem c1_amended_host_uniqueness (s : ServerState) (hs : Reach okC1 s)
    (rid : String) (room : Room) (hr : mlookup rid s.rooms = some room) :
    (∀ k1 p1 k2 p2, mlookup k1 room.participants = some p1 → p1.isHost = true →
      mlookup k2 room.participants = some p2 → p2.isHost = true → k1 = k2) ∧
    (∀ h, room.hostId = some h →
      ∃ p, mlookup h room.participants = some p ∧ p.isHost = true ∧ p.id = h) ∧
    (∀ k p, mlookup k room.participants = some p → p.isHost = true →
      room.hostId = some p.id) := by
  have hinv := hostInv_invariant s hs rid room hr
  refine ⟨?_, ?_, ?_⟩
  · intro k1 p1 k2 p2 h1 hh1 h2 hh2
    have e1 := hinv.host_unique k1 p1 h1 hh1
    have e2 := hinv.host_unique k2 p2 h2 hh2
    rw [e1] at e2
    exact Option.some.inj e2
  · intro h hh
    obtain ⟨p, hp, hphost⟩ := hinv.host_mem h hh
    exact ⟨p, hp, hphost, hinv.pid_eq h p hp⟩
  · intro k p hp hphost
    rw [hinv.pid_eq k p hp]
    exact hinv.host_unique k p hp hphost

theorem reachC1_sHostA6 : Reach okC1 sHostA6 :=
  Reach.next (Event.approveParticipant "A" "r" "B")
    (Reach.next (Event.joinRoom "B" "r" "ub" "pb" false 2)
      (Reach.next (Event.joinRoom "A" "r" "ua" "pa" false 1)
        (Reach.next (Event.connect "B")
          (Reach.next (Event.connect "A")
            (Reach.next (Event.createRoom "r" 0) Reach.init (by decide))
            (by decide))
          (by decide))
        (by decide))
      (by decide))
    (by decide)

/-- Witness for the amended C1 at the concrete base trace state (host A,
member B), reachable under the okC1 restriction: the occupied host slot A
is realized by an isHost record with id A. -/
theorem c1_amended_host_uniqueness_witness :
    ∃ p, mlookup "A" (roomOf sHostA6 "r").participants = some p ∧
      p.isHost = true ∧ p.id = "A" :=
  (c1_amended_host_uniqueness sHostA6 reachC1_sHostA6 "r" (roomOf sHostA6 "r")
    (by decide)).2.1 "A" (by decide)
